import Mathlib

/-!
Verification of the message-formatting engine of the Whatsbot repository
(`services/messageFormatter.js`, class `MessageFormatter`).

The engine is a pure string-to-string pipeline.  We embed JS strings as
`List Char` (Unicode scalar values, the iteration unit of every pass);
where the JS code's UTF-16 code-unit view matters (`split('')` in
`toStrikethroughUnicode`) we additionally model the whole pipeline at
the code-unit level (`convertToIOSStyleU16` over `utf16Units`) and prove
that the scalar model computes it exactly on tilde-free input
(`convertToIOSStyle_commute_of_no_tilde`).  On a `~`-span interior
containing a supplementary scalar the two levels genuinely diverge —
`split('')` interleaves combining marks between surrogate halves there —
and the code-unit model is the faithful one.

The global regex replaces `text.replace(/\*([^*]+)\*\/g, ...)` etc. are
embedded as the fuel-indexed scanner `rewriteSpansF`: at each position,
an occurrence of the one-character delimiter whose nearest following
delimiter occurrence is at distance at least two starts a span (the
character class `[^*]+` requires a nonempty interior free of the
delimiter); otherwise the scanner emits one character and advances.
`rewriteMonoF` is the same for the three-character triple-backtick
delimiter of `/```([^`]+)```/g`, whose interior class `[^`]+` excludes
every backtick.  Fuel `l.length` always suffices since every step
consumes at least one character.
-/

namespace Whatsbot

/-- U+0336, the combining long stroke overlay appended by
`toStrikethroughUnicode`. -/
def strikeMark : Char := Char.ofNat 0x336

/-- U+200B, the zero-width space inserted by `improveEmojiSpacing`. -/
def zwsp : Char := Char.ofNat 0x200B

/-- U+FE0F, the emoji variation selector tested by the second regex
alternative `\p{Emoji}️` of `improveEmojiSpacing`. -/
def vs16 : Char := Char.ofNat 0xFE0F

/-- U+0060, the backtick delimiter character of the monospace pattern. -/
def backtick : Char := Char.ofNat 0x60

/-- Splits `l` as `interior ++ d :: post` at the first occurrence of `d`;
`none` when `d` does not occur.  This is the search for the nearest
following closing delimiter performed by the regex `[^d]+d` part of the
span patterns. -/
def findClose {α : Type} [DecidableEq α] (d : α) : List α → Option (List α × List α)
  | [] => none
  | c :: rest =>
    if c = d then some ([], rest)
    else
      match findClose d rest with
      | some (pre, post) => some (c :: pre, post)
      | none => none

/-- One-character-delimiter global regex replace, fuel-indexed.  Models
`text.replace(/d([^d]+)d/g, (m, content) => f content)`: at a delimiter
occurrence whose nearest following occurrence leaves a nonempty interior,
the whole match is replaced by `f interior` and scanning resumes after
the consumed closing delimiter; at a delimiter with an empty interior the
engine fails to match there and advances one position; with no closing
delimiter at all the rest of the text is emitted verbatim. -/
def rewriteSpansF {α : Type} [DecidableEq α] (d : α) (f : List α → List α) :
    Nat → List α → List α
  | 0, l => l
  | fuel + 1, l =>
    match l with
    | [] => []
    | c :: rest =>
      if c = d then
        match findClose d rest with
        | some (i :: interior, post) => f (i :: interior) ++ rewriteSpansF d f fuel post
        | some ([], _) => c :: rewriteSpansF d f fuel rest
        | none => c :: rest
      else c :: rewriteSpansF d f fuel rest

/-- The span rewriter for a one-character delimiter. -/
def rewriteSpans {α : Type} [DecidableEq α] (d : α) (f : List α → List α)
    (l : List α) : List α :=
  rewriteSpansF d f l.length l

/-- Splits `l` as `interior ++ backtick :: backtick :: backtick :: post`
where `interior` is the maximal backtick-free prefix: the regex part
`([^`]+)``` ` searches the nearest backtick and requires the literal
three-character closing marker to start there.  `none` when there is no
backtick or the first backtick run is too short. -/
def monoSplit : List Char → Option (List Char × List Char)
  | [] => none
  | c :: rest =>
    if c = backtick then
      match rest with
      | c2 :: c3 :: post =>
        if c2 = backtick ∧ c3 = backtick then some ([], post) else none
      | _ => none
    else
      match monoSplit rest with
      | some (pre, post) => some (c :: pre, post)
      | none => none

/-- Triple-backtick global regex replace, fuel-indexed.  Models
`` text.replace(/```([^`]+)```/g, (m, content) => f content) ``: a match
needs the three-character opening marker, a nonempty interior with no
backtick at all, and the three-character closing marker; on failure the
scan advances a single position. -/
def rewriteMonoF (f : List Char → List Char) : Nat → List Char → List Char
  | 0, l => l
  | fuel + 1, l =>
    match l with
    | c1 :: c2 :: c3 :: rest =>
      if c1 = backtick ∧ c2 = backtick ∧ c3 = backtick then
        match monoSplit rest with
        | some (i :: interior, post) => f (i :: interior) ++ rewriteMonoF f fuel post
        | some ([], _) => c1 :: rewriteMonoF f fuel (c2 :: c3 :: rest)
        | none => c1 :: rewriteMonoF f fuel (c2 :: c3 :: rest)
      else c1 :: rewriteMonoF f fuel (c2 :: c3 :: rest)
    | l => l

/-- The span rewriter for the triple-backtick delimiter. -/
def rewriteMono (f : List Char → List Char) (l : List Char) : List Char :=
  rewriteMonoF f l.length l

/-- `boldMap` of `toBoldUnicode`, in source order: the mathematical
sans-serif bold alphabet plus bold digits. -/
def boldAssoc : List (Char × Char) :=
  [('A', '𝗔'), ('B', '𝗕'), ('C', '𝗖'), ('D', '𝗗'), ('E', '𝗘'), ('F', '𝗙'), ('G', '𝗚'),
   ('H', '𝗛'), ('I', '𝗜'), ('J', '𝗝'), ('K', '𝗞'), ('L', '𝗟'), ('M', '𝗠'), ('N', '𝗡'),
   ('O', '𝗢'), ('P', '𝗣'), ('Q', '𝗤'), ('R', '𝗥'), ('S', '𝗦'), ('T', '𝗧'), ('U', '𝗨'),
   ('V', '𝗩'), ('W', '𝗪'), ('X', '𝗫'), ('Y', '𝗬'), ('Z', '𝗭'),
   ('a', '𝗮'), ('b', '𝗯'), ('c', '𝗰'), ('d', '𝗱'), ('e', '𝗲'), ('f', '𝗳'), ('g', '𝗴'),
   ('h', '𝗵'), ('i', '𝗶'), ('j', '𝗷'), ('k', '𝗸'), ('l', '𝗹'), ('m', '𝗺'), ('n', '𝗻'),
   ('o', '𝗼'), ('p', '𝗽'), ('q', '𝗾'), ('r', '𝗿'), ('s', '𝘀'), ('t', '𝘁'), ('u', '𝘂'),
   ('v', '𝘃'), ('w', '𝘄'), ('x', '𝘅'), ('y', '𝘆'), ('z', '𝘇'),
   ('0', '𝟬'), ('1', '𝟭'), ('2', '𝟮'), ('3', '𝟯'), ('4', '𝟰'),
   ('5', '𝟱'), ('6', '𝟲'), ('7', '𝟳'), ('8', '𝟴'), ('9', '𝟵')]

/-- `italicMap` of `toItalicUnicode`: the mathematical sans-serif italic
alphabet, letters only (no digit entries in the source). -/
def italicAssoc : List (Char × Char) :=
  [('A', '𝘈'), ('B', '𝘉'), ('C', '𝘊'), ('D', '𝘋'), ('E', '𝘌'), ('F', '𝘍'), ('G', '𝘎'),
   ('H', '𝘏'), ('I', '𝘐'), ('J', '𝘑'), ('K', '𝘒'), ('L', '𝘓'), ('M', '𝘔'), ('N', '𝘕'),
   ('O', '𝘖'), ('P', '𝘗'), ('Q', '𝘘'), ('R', '𝘙'), ('S', '𝘚'), ('T', '𝘛'), ('U', '𝘜'),
   ('V', '𝘝'), ('W', '𝘞'), ('X', '𝘟'), ('Y', '𝘠'), ('Z', '𝘡'),
   ('a', '𝘢'), ('b', '𝘣'), ('c', '𝘤'), ('d', '𝘥'), ('e', '𝘦'), ('f', '𝘧'), ('g', '𝘨'),
   ('h', '𝘩'), ('i', '𝘪'), ('j', '𝘫'), ('k', '𝘬'), ('l', '𝘭'), ('m', '𝘮'), ('n', '𝘯'),
   ('o', '𝘰'), ('p', '𝘱'), ('q', '𝘲'), ('r', '𝘳'), ('s', '𝘴'), ('t', '𝘵'), ('u', '𝘶'),
   ('v', '𝘷'), ('w', '𝘸'), ('x', '𝘹'), ('y', '𝘺'), ('z', '𝘻')]

/-- `monospaceMap` of `toMonospaceUnicode`: the mathematical monospace
alphabet plus monospace digits. -/
def monospaceAssoc : List (Char × Char) :=
  [('A', '𝙰'), ('B', '𝙱'), ('C', '𝙲'), ('D', '𝙳'), ('E', '𝙴'), ('F', '𝙵'), ('G', '𝙶'),
   ('H', '𝙷'), ('I', '𝙸'), ('J', '𝙹'), ('K', '𝙺'), ('L', '𝙻'), ('M', '𝙼'), ('N', '𝙽'),
   ('O', '𝙾'), ('P', '𝙿'), ('Q', '𝚀'), ('R', '𝚁'), ('S', '𝚂'), ('T', '𝚃'), ('U', '𝚄'),
   ('V', '𝚅'), ('W', '𝚆'), ('X', '𝚇'), ('Y', '𝚈'), ('Z', '𝚉'),
   ('a', '𝚊'), ('b', '𝚋'), ('c', '𝚌'), ('d', '𝚍'), ('e', '𝚎'), ('f', '𝚏'), ('g', '𝚐'),
   ('h', '𝚑'), ('i', '𝚒'), ('j', '𝚓'), ('k', '𝚔'), ('l', '𝚕'), ('m', '𝚖'), ('n', '𝚗'),
   ('o', '𝚘'), ('p', '𝚙'), ('q', '𝚚'), ('r', '𝚛'), ('s', '𝚜'), ('t', '𝚝'), ('u', '𝚞'),
   ('v', '𝚟'), ('w', '𝚠'), ('x', '𝚡'), ('y', '𝚢'), ('z', '𝚣'),
   ('0', '𝟶'), ('1', '𝟷'), ('2', '𝟸'), ('3', '𝟹'), ('4', '𝟺'),
   ('5', '𝟻'), ('6', '𝟼'), ('7', '𝟽'), ('8', '𝟾'), ('9', '𝟿')]

/-- `map[char] || char`: look a character up in a glyph table, characters
outside the table pass through unchanged. -/
def mapChar (assoc : List (Char × Char)) (c : Char) : Char :=
  match assoc.find? (fun p => p.1 == c) with
  | some p => p.2
  | none => c

/-- `toBoldUnicode`: `text.split('').map(char => boldMap[char] || char).join('')`
(every table key and value is a single scalar, so at scalar level this is
a per-character map). -/
def toBoldUnicode (l : List Char) : List Char := l.map (mapChar boldAssoc)

/-- `toItalicUnicode`, per character through `italicMap`. -/
def toItalicUnicode (l : List Char) : List Char := l.map (mapChar italicAssoc)

/-- `toMonospaceUnicode`, per character through `monospaceMap`. -/
def toMonospaceUnicode (l : List Char) : List Char := l.map (mapChar monospaceAssoc)

/-- `toStrikethroughUnicode` at scalar level:
`text.split('').map(char => char + '̶').join('')`.  JS `split('')`
splits into UTF-16 code units, so the source appends one U+0336 per
code unit; the faithful embedding is `toStrikethroughUnicodeU16`.  This
scalar-level map agrees with it exactly on interiors of
Basic-Multilingual-Plane scalars (one scalar = one code unit there); on
an interior containing a supplementary scalar the source instead puts a
mark after each surrogate half, which only the code-unit form captures.
The scalar pipeline `convertToIOSStyle` therefore models the program
faithfully precisely on tilde-free input, see
`convertToIOSStyle_commute_of_no_tilde`. -/
def toStrikethroughUnicode (l : List Char) : List Char :=
  l.flatMap (fun c => [c, strikeMark])

/-- UTF-16 encoding of one scalar value: one code unit on the BMP, a
surrogate pair above it. -/
def utf16Encode (c : Char) : List Nat :=
  if c.toNat < 0x10000 then [c.toNat]
  else [0xD800 + (c.toNat - 0x10000) / 0x400, 0xDC00 + (c.toNat - 0x10000) % 0x400]

/-- The UTF-16 code-unit sequence of a scalar sequence: the element view
a JS string (and hence `split('')`) exposes. -/
def utf16Units (l : List Char) : List Nat := l.flatMap utf16Encode

/-- `toStrikethroughUnicode` at the faithful UTF-16 code-unit level:
`split('')` yields one element per code unit and U+0336 (code unit
`0x336`) is appended after each element. -/
def toStrikethroughUnicodeU16 (units : List Nat) : List Nat :=
  units.flatMap (fun u => [u, 0x336])

/-- `convertBold`: `text.replace(/\*([^*]+)\*\/g, content => toBoldUnicode content)`. -/
def convertBold (l : List Char) : List Char := rewriteSpans '*' toBoldUnicode l

/-- `convertItalic`: the same rewriter with delimiter `_` and the italic table. -/
def convertItalic (l : List Char) : List Char := rewriteSpans '_' toItalicUnicode l

/-- `convertStrikethrough`: delimiter `~`, combining-mark transformation. -/
def convertStrikethrough (l : List Char) : List Char :=
  rewriteSpans '~' toStrikethroughUnicode l

/-- `convertMonospace`: triple-backtick delimiter, monospace table. -/
def convertMonospace (l : List Char) : List Char := rewriteMono toMonospaceUnicode l

/-- Modelled from the spec: the replacement characters of
`convertQuotes`.  In this snapshot of the source the double-quote line
reads `text.replace(/"([^"]+)"/g, '"$1"')` — a replacement of straight
quotes by straight quotes — and the single-quote line `''$1''` is not
parseable JS at all: the curly replacement literals were evidently
mangled when the file was captured.  The code's own comment ("Replace
straight quotes with curly quotes (iOS style)") and spec §4.3 name the
left/right curly pairs, so the model wraps the interior in
U+201C/U+201D and U+2018/U+2019.  The span structure — first
`/"([^"]+)"/g`, then `/'([^']+)'/g`, lazy nonempty interiors, both
delimiters consumed — is taken from the source regexes; no claim's
truth depends on which characters the wrap inserts. -/
def convertQuotes (l : List Char) : List Char :=
  rewriteSpans (Char.ofNat 0x27)
    (fun interior => Char.ofNat 0x2018 :: interior ++ [Char.ofNat 0x2019])
    (rewriteSpans (Char.ofNat 0x22)
      (fun interior => Char.ofNat 0x201C :: interior ++ [Char.ofNat 0x201D]) l)

/-- Closed scalar ranges of the Unicode `Emoji_Presentation` property
(UCD `emoji-data.txt`), the set matched by the first regex alternative
`\p{Emoji_Presentation}` of `improveEmojiSpacing`. -/
def emojiPresentationRanges : List (Nat × Nat) :=
  [(0x231A, 0x231B), (0x23E9, 0x23EC), (0x23F0, 0x23F0), (0x23F3, 0x23F3),
   (0x25FD, 0x25FE), (0x2614, 0x2615), (0x2648, 0x2653), (0x267F, 0x267F),
   (0x2693, 0x2693), (0x26A1, 0x26A1), (0x26AA, 0x26AB), (0x26BD, 0x26BE),
   (0x26C4, 0x26C5), (0x26CE, 0x26CE), (0x26D4, 0x26D4), (0x26EA, 0x26EA),
   (0x26F2, 0x26F3), (0x26F5, 0x26F5), (0x26FA, 0x26FA), (0x26FD, 0x26FD),
   (0x2705, 0x2705), (0x270A, 0x270B), (0x2728, 0x2728), (0x274C, 0x274C),
   (0x274E, 0x274E), (0x2753, 0x2755), (0x2757, 0x2757), (0x2795, 0x2797),
   (0x27B0, 0x27B0), (0x27BF, 0x27BF), (0x2B1B, 0x2B1C), (0x2B50, 0x2B50),
   (0x2B55, 0x2B55), (0x1F004, 0x1F004), (0x1F0CF, 0x1F0CF), (0x1F18E, 0x1F18E),
   (0x1F191, 0x1F19A), (0x1F1E6, 0x1F1FF), (0x1F201, 0x1F201), (0x1F21A, 0x1F21A),
   (0x1F22F, 0x1F22F), (0x1F232, 0x1F236), (0x1F238, 0x1F23A), (0x1F250, 0x1F251),
   (0x1F300, 0x1F320), (0x1F32D, 0x1F335), (0x1F337, 0x1F37C), (0x1F37E, 0x1F393),
   (0x1F3A0, 0x1F3CA), (0x1F3CF, 0x1F3D3), (0x1F3E0, 0x1F3F0), (0x1F3F4, 0x1F3F4),
   (0x1F3F8, 0x1F43E), (0x1F440, 0x1F440), (0x1F442, 0x1F4FC), (0x1F4FF, 0x1F53D),
   (0x1F54B, 0x1F54E), (0x1F550, 0x1F567), (0x1F57A, 0x1F57A), (0x1F595, 0x1F596),
   (0x1F5A4, 0x1F5A4), (0x1F5FB, 0x1F64F), (0x1F680, 0x1F6C5), (0x1F6CC, 0x1F6CC),
   (0x1F6D0, 0x1F6D2), (0x1F6D5, 0x1F6D7), (0x1F6DC, 0x1F6DF), (0x1F6EB, 0x1F6EC),
   (0x1F6F4, 0x1F6FC), (0x1F7E0, 0x1F7EB), (0x1F7F0, 0x1F7F0), (0x1F90C, 0x1F93A),
   (0x1F93C, 0x1F945), (0x1F947, 0x1F9FF), (0x1FA70, 0x1FA7C), (0x1FA80, 0x1FA89),
   (0x1FA8F, 0x1FAC6), (0x1FACE, 0x1FADC), (0x1FADF, 0x1FAE9), (0x1FAF0, 0x1FAF8)]

/-- Closed scalar ranges of the Unicode `Emoji` property (UCD
`emoji-data.txt`), the set matched by `\p{Emoji}` in the second regex
alternative of `improveEmojiSpacing` (notably including `#`, `*` and the
ASCII digits, which are emoji bases without default emoji
presentation). -/
def emojiRanges : List (Nat × Nat) :=
  [(0x23, 0x23), (0x2A, 0x2A), (0x30, 0x39), (0xA9, 0xA9), (0xAE, 0xAE),
   (0x203C, 0x203C), (0x2049, 0x2049), (0x2122, 0x2122), (0x2139, 0x2139),
   (0x2194, 0x2199), (0x21A9, 0x21AA), (0x231A, 0x231B), (0x2328, 0x2328),
   (0x23CF, 0x23CF), (0x23E9, 0x23F3), (0x23F8, 0x23FA), (0x24C2, 0x24C2),
   (0x25AA, 0x25AB), (0x25B6, 0x25B6), (0x25C0, 0x25C0), (0x25FB, 0x25FE),
   (0x2600, 0x2604), (0x260E, 0x260E), (0x2611, 0x2611), (0x2614, 0x2615),
   (0x2618, 0x2618), (0x261D, 0x261D), (0x2620, 0x2620), (0x2622, 0x2623),
   (0x2626, 0x2626), (0x262A, 0x262A), (0x262E, 0x262F), (0x2638, 0x263A),
   (0x2640, 0x2640), (0x2642, 0x2642), (0x2648, 0x2653), (0x265F, 0x2660),
   (0x2663, 0x2663), (0x2665, 0x2666), (0x2668, 0x2668), (0x267B, 0x267B),
   (0x267E, 0x267F), (0x2692, 0x2697), (0x2699, 0x2699), (0x269B, 0x269C),
   (0x26A0, 0x26A1), (0x26A7, 0x26A7), (0x26AA, 0x26AB), (0x26B0, 0x26B1),
   (0x26BD, 0x26BE), (0x26C4, 0x26C5), (0x26C8, 0x26C8), (0x26CE, 0x26CF),
   (0x26D1, 0x26D1), (0x26D3, 0x26D4), (0x26E9, 0x26EA), (0x26F0, 0x26F5),
   (0x26F7, 0x26FA), (0x26FD, 0x26FD), (0x2702, 0x2702), (0x2705, 0x2705),
   (0x2708, 0x270D), (0x270F, 0x270F), (0x2712, 0x2712), (0x2714, 0x2714),
   (0x2716, 0x2716), (0x271D, 0x271D), (0x2721, 0x2721), (0x2728, 0x2728),
   (0x2733, 0x2734), (0x2744, 0x2744), (0x2747, 0x2747), (0x274C, 0x274C),
   (0x274E, 0x274E), (0x2753, 0x2755), (0x2757, 0x2757), (0x2763, 0x2764),
   (0x2795, 0x2797), (0x27A1, 0x27A1), (0x27B0, 0x27B0), (0x27BF, 0x27BF),
   (0x2934, 0x2935), (0x2B05, 0x2B07), (0x2B1B, 0x2B1C), (0x2B50, 0x2B50),
   (0x2B55, 0x2B55), (0x3030, 0x3030), (0x303D, 0x303D), (0x3297, 0x3297),
   (0x3299, 0x3299), (0x1F004, 0x1F004), (0x1F0CF, 0x1F0CF), (0x1F170, 0x1F171),
   (0x1F17E, 0x1F17F), (0x1F18E, 0x1F18E), (0x1F191, 0x1F19A), (0x1F1E6, 0x1F1FF),
   (0x1F201, 0x1F202), (0x1F21A, 0x1F21A), (0x1F22F, 0x1F22F), (0x1F232, 0x1F23A),
   (0x1F250, 0x1F251), (0x1F300, 0x1F321), (0x1F324, 0x1F393), (0x1F396, 0x1F397),
   (0x1F399, 0x1F39B), (0x1F39E, 0x1F3F0), (0x1F3F3, 0x1F3F5), (0x1F3F7, 0x1F4FD),
   (0x1F4FF, 0x1F53D), (0x1F549, 0x1F54E), (0x1F550, 0x1F567), (0x1F56F, 0x1F570),
   (0x1F573, 0x1F57A), (0x1F587, 0x1F587), (0x1F58A, 0x1F58D), (0x1F590, 0x1F590),
   (0x1F595, 0x1F596), (0x1F5A4, 0x1F5A5), (0x1F5A8, 0x1F5A8), (0x1F5B1, 0x1F5B2),
   (0x1F5BC, 0x1F5BC), (0x1F5C2, 0x1F5C4), (0x1F5D1, 0x1F5D3), (0x1F5DC, 0x1F5DE),
   (0x1F5E1, 0x1F5E1), (0x1F5E3, 0x1F5E3), (0x1F5E8, 0x1F5E8), (0x1F5EF, 0x1F5EF),
   (0x1F5F3, 0x1F5F3), (0x1F5FA, 0x1F64F), (0x1F680, 0x1F6C5), (0x1F6CB, 0x1F6D2),
   (0x1F6D5, 0x1F6D7), (0x1F6DC, 0x1F6E5), (0x1F6E9, 0x1F6E9), (0x1F6EB, 0x1F6EC),
   (0x1F6F0, 0x1F6F0), (0x1F6F3, 0x1F6FC), (0x1F7E0, 0x1F7EB), (0x1F7F0, 0x1F7F0),
   (0x1F90C, 0x1F93A), (0x1F93C, 0x1F945), (0x1F947, 0x1F9FF), (0x1FA70, 0x1FA7C),
   (0x1FA80, 0x1FA89), (0x1FA8F, 0x1FAC6), (0x1FACE, 0x1FADC), (0x1FADF, 0x1FAE9),
   (0x1FAF0, 0x1FAF8)]

/-- Membership of a scalar value in a list of closed ranges. -/
def inRanges (rs : List (Nat × Nat)) (n : Nat) : Bool :=
  rs.any (fun p => decide (p.1 ≤ n) && decide (n ≤ p.2))

/-- `\p{Emoji_Presentation}` as a scalar-value classifier. -/
def isEmojiPresentation (c : Char) : Bool := inRanges emojiPresentationRanges c.toNat

/-- `\p{Emoji}` as a scalar-value classifier. -/
def isEmoji (c : Char) : Bool := inRanges emojiRanges c.toNat

/-- `improveEmojiSpacing`:
`text.replace(/(\p{Emoji_Presentation}|\p{Emoji}️)/gu, '$1​')`.
The `u` flag makes the scan advance by scalar value; at each position
the first alternative (one default-emoji-presentation scalar) is tried
first, then the second (an emoji base followed by the variation
selector); a match is re-emitted followed by one zero-width space. -/
def improveEmojiSpacing : List Char → List Char
  | [] => []
  | [c] => if isEmojiPresentation c then [c, zwsp] else [c]
  | c :: c2 :: rest =>
    if isEmojiPresentation c then c :: zwsp :: improveEmojiSpacing (c2 :: rest)
    else if isEmoji c ∧ c2 = vs16 then c :: c2 :: zwsp :: improveEmojiSpacing rest
    else c :: improveEmojiSpacing (c2 :: rest)

/-- `convertToIOSStyle`, the pipeline driver: bold, italic,
strikethrough, monospace, quotes, emoji spacing, in the source's order.
This is the scalar-value view; the JS engine operates on UTF-16 code
units, replayed exactly by `convertToIOSStyleU16`, and the two agree on
tilde-free input (`convertToIOSStyle_commute_of_no_tilde`). -/
def convertToIOSStyle (text : String) : String :=
  let styledText := text.data
  let styledText := convertBold styledText
  let styledText := convertItalic styledText
  let styledText := convertStrikethrough styledText
  let styledText := convertMonospace styledText
  let styledText := convertQuotes styledText
  let styledText := improveEmojiSpacing styledText
  String.mk styledText

/-- The ASCII letters, in the key order shared by all three glyph
tables. -/
def asciiLetters : List Char :=
  "ABCDEFGHIJKLMNOPQRSTUVWXYZabcdefghijklmnopqrstuvwxyz".data

/-- The ASCII digits, the extra keys of the bold and monospace tables. -/
def asciiDigits : List Char := "0123456789".data

/-- The scalar ranges of the glyph-table values: mathematical sans-serif
bold letters (U+1D5D4 to U+1D607), sans-serif italic letters (U+1D608 to
U+1D63B), monospace letters (U+1D670 to U+1D6A3), bold digits (U+1D7EC
to U+1D7F5) and monospace digits (U+1D7F6 to U+1D7FF). -/
def isStyledGlyph (c : Char) : Bool :=
  (decide (0x1D5D4 ≤ c.toNat) && decide (c.toNat ≤ 0x1D63B)) ||
  (decide (0x1D670 ≤ c.toNat) && decide (c.toNat ≤ 0x1D6A3)) ||
  (decide (0x1D7EC ≤ c.toNat) && decide (c.toNat ≤ 0x1D7FF))

/-! ### The UTF-16 code-unit view

JS strings are sequences of UTF-16 code units, and `split('')` as well
as the non-`u` regexes operate on that sequence.  The following
definitions replay the same pipeline directly on code units (`List Nat`)
so that behaviour on ill-formed intermediate strings (lone surrogates
produced by `toStrikethroughUnicode` on astral interiors) is captured
exactly. -/

/-- A glyph table at code-unit level: keys are single BMP code units,
values are code-unit sequences. -/
def mapCharU16 (assoc : List (Nat × List Nat)) (u : Nat) : List Nat :=
  match assoc.find? (fun pr => pr.1 == u) with
  | some pr => pr.2
  | none => [u]

/-- `boldMap` with code-unit keys and code-unit-sequence values. -/
def boldAssoc16 : List (Nat × List Nat) :=
  boldAssoc.map (fun pr => (pr.1.toNat, utf16Encode pr.2))

/-- `italicMap` with code-unit keys and code-unit-sequence values. -/
def italicAssoc16 : List (Nat × List Nat) :=
  italicAssoc.map (fun pr => (pr.1.toNat, utf16Encode pr.2))

/-- `monospaceMap` with code-unit keys and code-unit-sequence values. -/
def monospaceAssoc16 : List (Nat × List Nat) :=
  monospaceAssoc.map (fun pr => (pr.1.toNat, utf16Encode pr.2))

/-- `toBoldUnicode` at code-unit level: `split('')` yields one element
per code unit, each is looked up in the table (a lone surrogate matches
no key) and the results are rejoined. -/
def toBoldUnicodeU16 (units : List Nat) : List Nat :=
  units.flatMap (mapCharU16 boldAssoc16)

/-- `toItalicUnicode` at code-unit level. -/
def toItalicUnicodeU16 (units : List Nat) : List Nat :=
  units.flatMap (mapCharU16 italicAssoc16)

/-- `toMonospaceUnicode` at code-unit level. -/
def toMonospaceUnicodeU16 (units : List Nat) : List Nat :=
  units.flatMap (mapCharU16 monospaceAssoc16)

/-- `monoSplit` at code-unit level (the backtick is the single code
unit `0x60`). -/
def monoSplit16 : List Nat → Option (List Nat × List Nat)
  | [] => none
  | u :: rest =>
    if u = 0x60 then
      match rest with
      | u2 :: u3 :: post =>
        if u2 = 0x60 ∧ u3 = 0x60 then some ([], post) else none
      | _ => none
    else
      match monoSplit16 rest with
      | some (pre, post) => some (u :: pre, post)
      | none => none

/-- `rewriteMonoF` at code-unit level. -/
def rewriteMonoF16 (f : List Nat → List Nat) : Nat → List Nat → List Nat
  | 0, units => units
  | fuel + 1, units =>
    match units with
    | u1 :: u2 :: u3 :: rest =>
      if u1 = 0x60 ∧ u2 = 0x60 ∧ u3 = 0x60 then
        match monoSplit16 rest with
        | some (i :: interior, post) => f (i :: interior) ++ rewriteMonoF16 f fuel post
        | some ([], _) => u1 :: rewriteMonoF16 f fuel (u2 :: u3 :: rest)
        | none => u1 :: rewriteMonoF16 f fuel (u2 :: u3 :: rest)
      else u1 :: rewriteMonoF16 f fuel (u2 :: u3 :: rest)
    | units => units

/-- The triple-backtick span rewriter at code-unit level. -/
def rewriteMono16 (f : List Nat → List Nat) (units : List Nat) : List Nat :=
  rewriteMonoF16 f units.length units

/-- `improveEmojiSpacing` at code-unit level, fuel-indexed.  The `u`
flag makes the regex iterate by code point: a high surrogate followed by
a low surrogate is decoded to a supplementary code point, any other unit
(including a lone surrogate) is its own code point; a code point with
default emoji presentation, or an emoji base followed by the variation
selector, is re-emitted followed by one zero-width space, everything
else is emitted unchanged, advancing one code point at a time. -/
def improveEmojiSpacingU16F : Nat → List Nat → List Nat
  | 0, units => units
  | fuel + 1, units =>
    match units with
    | [] => []
    | u :: rest =>
      if 0xD800 ≤ u ∧ u ≤ 0xDBFF then
        match rest with
        | u2 :: rest2 =>
          if 0xDC00 ≤ u2 ∧ u2 ≤ 0xDFFF then
            if inRanges emojiPresentationRanges
                (0x10000 + (u - 0xD800) * 0x400 + (u2 - 0xDC00)) then
              u :: u2 :: 0x200B :: improveEmojiSpacingU16F fuel rest2
            else if inRanges emojiRanges
                (0x10000 + (u - 0xD800) * 0x400 + (u2 - 0xDC00)) then
              match rest2 with
              | u3 :: rest3 =>
                if u3 = 0xFE0F then
                  u :: u2 :: u3 :: 0x200B :: improveEmojiSpacingU16F fuel rest3
                else u :: u2 :: improveEmojiSpacingU16F fuel rest2
              | [] => [u, u2]
            else u :: u2 :: improveEmojiSpacingU16F fuel rest2
          else u :: improveEmojiSpacingU16F fuel rest
        | [] => [u]
      else
        if inRanges emojiPresentationRanges u then
          u :: 0x200B :: improveEmojiSpacingU16F fuel rest
        else if inRanges emojiRanges u then
          match rest with
          | u2 :: rest2 =>
            if u2 = 0xFE0F then
              u :: u2 :: 0x200B :: improveEmojiSpacingU16F fuel rest2
            else u :: improveEmojiSpacingU16F fuel rest
          | [] => [u]
        else u :: improveEmojiSpacingU16F fuel rest

/-- The emoji spacer at code-unit level. -/
def improveEmojiSpacingU16 (units : List Nat) : List Nat :=
  improveEmojiSpacingU16F units.length units

/-- `convertBold` at code-unit level (the delimiter `*` is unit
`0x2A`). -/
def convertBoldU16 (units : List Nat) : List Nat :=
  rewriteSpans 0x2A toBoldUnicodeU16 units

/-- `convertItalic` at code-unit level (`_` is unit `0x5F`). -/
def convertItalicU16 (units : List Nat) : List Nat :=
  rewriteSpans 0x5F toItalicUnicodeU16 units

/-- `convertStrikethrough` at code-unit level (`~` is unit `0x7E`);
this is the faithful form of the pass, appending the mark after every
code unit of the interior. -/
def convertStrikethroughU16 (units : List Nat) : List Nat :=
  rewriteSpans 0x7E toStrikethroughUnicodeU16 units

/-- `convertMonospace` at code-unit level. -/
def convertMonospaceU16 (units : List Nat) : List Nat :=
  rewriteMono16 toMonospaceUnicodeU16 units

/-- `convertQuotes` at code-unit level (straight quotes are units
`0x22` and `0x27`, the curly replacements are BMP units). -/
def convertQuotesU16 (units : List Nat) : List Nat :=
  rewriteSpans 0x27 (fun interior => 0x2018 :: interior ++ [0x2019])
    (rewriteSpans 0x22 (fun interior => 0x201C :: interior ++ [0x201D]) units)

/-- `convertToIOSStyle` at code-unit level: the same six passes on the
UTF-16 code-unit sequence, exactly as the JS engine sees the string. -/
def convertToIOSStyleU16 (units : List Nat) : List Nat :=
  improveEmojiSpacingU16 (convertQuotesU16 (convertMonospaceU16
    (convertStrikethroughU16 (convertItalicU16 (convertBoldU16 units)))))

/-! ### Structural lemmas about the span scanners -/

/-- Characterisation of a successful `findClose`: the split is at the
nearest following delimiter. -/
theorem findClose_some {α : Type} [DecidableEq α] {d : α} :
    ∀ {l interior post : List α},
    findClose d l = some (interior, post) →
    l = interior ++ d :: post ∧ d ∉ interior := by
  intro l
  induction l with
  | nil => intro interior post h; simp [findClose] at h
  | cons c rest ih =>
    intro interior post h
    by_cases hc : c = d
    · simp only [findClose, if_pos hc, Option.some.injEq, Prod.mk.injEq] at h
      obtain ⟨h1, h2⟩ := h
      subst h1; subst h2; subst hc
      simp
    · rcases hfc : findClose d rest with _ | ⟨pre, post2⟩
      · simp [findClose, hc, hfc] at h
      · simp only [findClose, if_neg hc, hfc, Option.some.injEq, Prod.mk.injEq] at h
        obtain ⟨h1, h2⟩ := h
        subst h1; subst h2
        obtain ⟨hrest, hnm⟩ := ih hfc
        subst hrest
        refine ⟨rfl, ?_⟩
        simp only [List.mem_cons, not_or]
        exact ⟨fun hdc => hc hdc.symm, hnm⟩

/-- `findClose` really finds the nearest delimiter: on
`interior ++ d :: post` with no `d` in `interior` it returns exactly
that split. -/
theorem findClose_append {α : Type} [DecidableEq α] {d : α} :
    ∀ {interior post : List α}, d ∉ interior →
    findClose d (interior ++ d :: post) = some (interior, post) := by
  intro interior
  induction interior with
  | nil => intro post _; simp [findClose]
  | cons c pre ih =>
    intro post h
    simp only [List.mem_cons, not_or] at h
    have hc : ¬ c = d := fun hcd => h.1 hcd.symm
    simp only [List.cons_append, findClose, if_neg hc, List.append_eq, ih h.2]

/-- With no delimiter in `l` there is no closing split. -/
theorem findClose_of_not_mem {α : Type} [DecidableEq α] {d : α} :
    ∀ {l : List α}, d ∉ l → findClose d l = none := by
  intro l
  induction l with
  | nil => intro _; simp [findClose]
  | cons c rest ih =>
    intro h
    simp only [List.mem_cons, not_or] at h
    have hc : ¬ c = d := fun hcd => h.1 hcd.symm
    simp [findClose, hc, ih h.2]

/-- The fuel argument of `rewriteSpansF` is irrelevant once it is at
least the length of the input. -/
theorem rewriteSpansF_congr {α : Type} [DecidableEq α] {d : α}
    {f : List α → List α} :
    ∀ (fuel1 fuel2 : Nat) (l : List α), l.length ≤ fuel1 → l.length ≤ fuel2 →
    rewriteSpansF d f fuel1 l = rewriteSpansF d f fuel2 l := by
  intro fuel1
  induction fuel1 with
  | zero =>
    intro fuel2 l h1 _
    have : l = [] := List.eq_nil_of_length_eq_zero (Nat.le_zero.mp h1)
    subst this
    cases fuel2 <;> simp [rewriteSpansF]
  | succ n ih =>
    intro fuel2 l h1 h2
    cases fuel2 with
    | zero =>
      have : l = [] := List.eq_nil_of_length_eq_zero (Nat.le_zero.mp h2)
      subst this
      simp [rewriteSpansF]
    | succ m =>
      cases l with
      | nil => simp [rewriteSpansF]
      | cons c rest =>
        simp only [List.length_cons, Nat.add_le_add_iff_right] at h1 h2
        simp only [rewriteSpansF]
        by_cases hc : c = d
        · simp only [if_pos hc]
          rcases hfc : findClose d rest with _ | ⟨interior, post⟩
          · rfl
          · obtain ⟨hrest, -⟩ := findClose_some hfc
            cases interior with
            | nil =>
              dsimp only
              rw [ih m rest h1 h2]
            | cons i int =>
              have hpost : post.length ≤ rest.length := by
                subst hrest; simp; omega
              dsimp only
              rw [ih m post (le_trans hpost h1) (le_trans hpost h2)]
        · simp only [if_neg hc]
          rw [ih m rest h1 h2]

/-- Sufficient fuel computes `rewriteSpans`. -/
theorem rewriteSpansF_eq {α : Type} [DecidableEq α] {d : α}
    {f : List α → List α} {fuel : Nat}
    {l : List α} (h : l.length ≤ fuel) :
    rewriteSpansF d f fuel l = rewriteSpans d f l :=
  rewriteSpansF_congr fuel l.length l h le_rfl

/-- A text with no delimiter occurrence passes through any
`rewriteSpansF` verbatim. -/
theorem rewriteSpansF_of_not_mem {α : Type} [DecidableEq α] {d : α}
    {f : List α → List α} :
    ∀ (fuel : Nat) {l : List α}, d ∉ l → rewriteSpansF d f fuel l = l := by
  intro fuel
  induction fuel with
  | zero => intro l _; simp [rewriteSpansF]
  | succ n ih =>
    intro l h
    cases l with
    | nil => simp [rewriteSpansF]
    | cons c rest =>
      simp only [List.mem_cons, not_or] at h
      have hc : ¬ c = d := fun hcd => h.1 hcd.symm
      simp [rewriteSpansF, hc, ih h.2]

/-- A text with no delimiter occurrence passes through the span rewriter
verbatim. -/
theorem rewriteSpans_of_not_mem {α : Type} [DecidableEq α] {d : α}
    {f : List α → List α}
    {l : List α} (h : d ∉ l) : rewriteSpans d f l = l :=
  rewriteSpansF_of_not_mem _ h

/-- The span rewriter preserves the `p`-filtered subsequence whenever the
delimiter is not a `p`-character and the interior transformation
preserves it. -/
theorem rewriteSpansF_filter {α : Type} [DecidableEq α] {d : α}
    {f : List α → List α}
    (p : α → Bool) (hd : p d = false)
    (hf : ∀ l, (f l).filter p = l.filter p) :
    ∀ (fuel : Nat) (l : List α), l.length ≤ fuel →
    (rewriteSpansF d f fuel l).filter p = l.filter p := by
  intro fuel
  induction fuel with
  | zero =>
    intro l h
    have : l = [] := List.eq_nil_of_length_eq_zero (Nat.le_zero.mp h)
    subst this
    simp [rewriteSpansF]
  | succ n ih =>
    intro l h
    cases l with
    | nil => simp [rewriteSpansF]
    | cons c rest =>
      simp only [List.length_cons, Nat.add_le_add_iff_right] at h
      simp only [rewriteSpansF]
      by_cases hc : c = d
      · simp only [if_pos hc]
        rcases hfc : findClose d rest with _ | ⟨interior, post⟩
        · rfl
        · obtain ⟨hrest, -⟩ := findClose_some hfc
          cases interior with
          | nil =>
            subst hc
            dsimp only
            rw [List.filter_cons_of_neg (by simp [hd]), ih rest h,
              List.filter_cons_of_neg (by simp [hd])]
          | cons i int =>
            have hpost : post.length ≤ rest.length := by
              subst hrest; simp; omega
            subst hc
            dsimp only
            rw [List.filter_append, hf, ih post (le_trans hpost h), hrest]
            simp only [List.filter_append, List.filter_cons, hd]
            cases p i <;> simp
      · simp only [if_neg hc]
        rw [List.filter_cons, List.filter_cons, ih rest h]

/-- `rewriteSpans` version of `rewriteSpansF_filter`. -/
theorem rewriteSpans_filter {α : Type} [DecidableEq α] {d : α}
    {f : List α → List α}
    (p : α → Bool) (hd : p d = false)
    (hf : ∀ l, (f l).filter p = l.filter p) (l : List α) :
    (rewriteSpans d f l).filter p = l.filter p :=
  rewriteSpansF_filter p hd hf l.length l le_rfl

/-- Characterisation of a successful `monoSplit`: the interior is the
maximal backtick-free prefix and the literal triple backtick follows. -/
theorem monoSplit_some : ∀ {l interior post : List Char},
    monoSplit l = some (interior, post) →
    l = interior ++ backtick :: backtick :: backtick :: post ∧ backtick ∉ interior := by
  intro l
  induction l with
  | nil => intro interior post h; simp [monoSplit] at h
  | cons c rest ih =>
    intro interior post h
    by_cases hc : c = backtick
    · rcases rest with _ | ⟨c2, _ | ⟨c3, post2⟩⟩
      · simp [monoSplit, hc] at h
      · simp [monoSplit, hc] at h
      · by_cases h23 : c2 = backtick ∧ c3 = backtick
        · simp only [monoSplit, if_pos hc, if_pos h23, Option.some.injEq,
            Prod.mk.injEq] at h
          obtain ⟨h1, h2⟩ := h
          subst h1; subst h2; subst hc
          obtain ⟨hb2, hb3⟩ := h23
          subst hb2; subst hb3
          simp
        · simp [monoSplit, hc, h23] at h
    · rcases hms : monoSplit rest with _ | ⟨pre, post2⟩
      · simp [monoSplit, hc, hms] at h
      · simp only [monoSplit, if_neg hc, hms, Option.some.injEq, Prod.mk.injEq] at h
        obtain ⟨h1, h2⟩ := h
        subst h1; subst h2
        obtain ⟨hrest, hnm⟩ := ih hms
        subst hrest
        refine ⟨rfl, ?_⟩
        simp only [List.mem_cons, not_or]
        exact ⟨fun hbc => hc hbc.symm, hnm⟩

/-- `monoSplit` splits exactly at the nearest backtick when a literal
triple backtick starts there. -/
theorem monoSplit_append :
    ∀ {interior post : List Char}, backtick ∉ interior →
    monoSplit (interior ++ backtick :: backtick :: backtick :: post) =
      some (interior, post) := by
  intro interior
  induction interior with
  | nil => intro post _; simp [monoSplit]
  | cons c pre ih =>
    intro post h
    simp only [List.mem_cons, not_or] at h
    have hc : ¬ c = backtick := fun hcb => h.1 hcb.symm
    simp only [List.cons_append, monoSplit, if_neg hc, List.append_eq, ih h.2]

/-- The fuel argument of `rewriteMonoF` is irrelevant once it is at
least the length of the input. -/
theorem rewriteMonoF_congr {f : List Char → List Char} :
    ∀ (fuel1 fuel2 : Nat) (l : List Char), l.length ≤ fuel1 → l.length ≤ fuel2 →
    rewriteMonoF f fuel1 l = rewriteMonoF f fuel2 l := by
  intro fuel1
  induction fuel1 with
  | zero =>
    intro fuel2 l h1 _
    have : l = [] := List.eq_nil_of_length_eq_zero (Nat.le_zero.mp h1)
    subst this
    cases fuel2 <;> simp [rewriteMonoF]
  | succ n ih =>
    intro fuel2 l h1 h2
    cases fuel2 with
    | zero =>
      have : l = [] := List.eq_nil_of_length_eq_zero (Nat.le_zero.mp h2)
      subst this
      simp [rewriteMonoF]
    | succ m =>
      rcases l with _ | ⟨c1, _ | ⟨c2, _ | ⟨c3, rest⟩⟩⟩
      · simp [rewriteMonoF]
      · simp [rewriteMonoF]
      · simp [rewriteMonoF]
      · simp only [List.length_cons] at h1 h2
        simp only [rewriteMonoF]
        by_cases hb : c1 = backtick ∧ c2 = backtick ∧ c3 = backtick
        · simp only [if_pos hb]
          rcases hms : monoSplit rest with _ | ⟨interior, post⟩
          · dsimp only
            rw [ih m (c2 :: c3 :: rest) (by simp; omega) (by simp; omega)]
          · obtain ⟨hrest, -⟩ := monoSplit_some hms
            cases interior with
            | nil =>
              dsimp only
              rw [ih m (c2 :: c3 :: rest) (by simp; omega) (by simp; omega)]
            | cons i int =>
              have hpost : post.length ≤ rest.length := by
                subst hrest; simp; omega
              dsimp only
              rw [ih m post (by omega) (by omega)]
        · simp only [if_neg hb]
          rw [ih m (c2 :: c3 :: rest) (by simp; omega) (by simp; omega)]

/-- Sufficient fuel computes `rewriteMono`. -/
theorem rewriteMonoF_eq {f : List Char → List Char} {fuel : Nat}
    {l : List Char} (h : l.length ≤ fuel) :
    rewriteMonoF f fuel l = rewriteMono f l :=
  rewriteMonoF_congr fuel l.length l h le_rfl

/-- A text with no backtick passes through any `rewriteMonoF` verbatim. -/
theorem rewriteMonoF_of_not_mem {f : List Char → List Char} :
    ∀ (fuel : Nat) {l : List Char}, backtick ∉ l → rewriteMonoF f fuel l = l := by
  intro fuel
  induction fuel with
  | zero => intro l _; simp [rewriteMonoF]
  | succ n ih =>
    intro l h
    rcases l with _ | ⟨c1, _ | ⟨c2, _ | ⟨c3, rest⟩⟩⟩
    · simp [rewriteMonoF]
    · simp [rewriteMonoF]
    · simp [rewriteMonoF]
    · simp only [List.mem_cons, not_or] at h
      have hb : ¬ (c1 = backtick ∧ c2 = backtick ∧ c3 = backtick) := by
        intro hx
        exact h.1 hx.1.symm
      have htail : backtick ∉ c2 :: c3 :: rest := by
        simp only [List.mem_cons, not_or]
        exact ⟨h.2.1, h.2.2⟩
      simp [rewriteMonoF, hb, ih htail]

/-- A text with no backtick passes through the monospace rewriter
verbatim. -/
theorem rewriteMono_of_not_mem {f : List Char → List Char}
    {l : List Char} (h : backtick ∉ l) : rewriteMono f l = l :=
  rewriteMonoF_of_not_mem _ h

/-- The monospace rewriter preserves the `p`-filtered subsequence
whenever the backtick is not a `p`-character and the interior
transformation preserves it. -/
theorem rewriteMonoF_filter {f : List Char → List Char}
    (p : Char → Bool) (hd : p backtick = false)
    (hf : ∀ l, (f l).filter p = l.filter p) :
    ∀ (fuel : Nat) (l : List Char), l.length ≤ fuel →
    (rewriteMonoF f fuel l).filter p = l.filter p := by
  intro fuel
  induction fuel with
  | zero =>
    intro l h
    have : l = [] := List.eq_nil_of_length_eq_zero (Nat.le_zero.mp h)
    subst this
    simp [rewriteMonoF]
  | succ n ih =>
    intro l h
    rcases l with _ | ⟨c1, _ | ⟨c2, _ | ⟨c3, rest⟩⟩⟩
    · simp [rewriteMonoF]
    · simp [rewriteMonoF]
    · simp [rewriteMonoF]
    · simp only [List.length_cons] at h
      simp only [rewriteMonoF]
      by_cases hb : c1 = backtick ∧ c2 = backtick ∧ c3 = backtick
      · obtain ⟨hb1, hb2, hb3⟩ := hb
        subst hb1; subst hb2; subst hb3
        rw [if_pos ⟨rfl, rfl, rfl⟩]
        rcases hms : monoSplit rest with _ | ⟨interior, post⟩
        · dsimp only
          simp [List.filter_cons, hd,
            ih (backtick :: backtick :: rest) (by simp; omega)]
        · obtain ⟨hrest, -⟩ := monoSplit_some hms
          cases interior with
          | nil =>
            dsimp only
            simp [List.filter_cons, hd,
              ih (backtick :: backtick :: rest) (by simp; omega)]
          | cons i int =>
            have hpost : post.length ≤ rest.length := by
              subst hrest; simp; omega
            dsimp only
            rw [List.filter_append, hf, ih post (by omega), hrest]
            simp only [List.filter_cons, List.filter_append, hd]
            cases p i <;> simp
      · simp only [if_neg hb]
        rw [List.filter_cons, List.filter_cons, ih (c2 :: c3 :: rest) (by simp; omega)]

/-- `rewriteMono` version of `rewriteMonoF_filter`. -/
theorem rewriteMono_filter {f : List Char → List Char}
    (p : Char → Bool) (hd : p backtick = false)
    (hf : ∀ l, (f l).filter p = l.filter p) (l : List Char) :
    (rewriteMono f l).filter p = l.filter p :=
  rewriteMonoF_filter p hd hf l.length l le_rfl

/-! ### Glyph table, strikethrough and emoji spacer lemmas -/

/-- A character outside a glyph table's key set passes through
`mapChar` unchanged. -/
theorem mapChar_of_not_mem {assoc : List (Char × Char)} {c : Char}
    (h : c ∉ assoc.map Prod.fst) : mapChar assoc c = c := by
  have hf : assoc.find? (fun pr => pr.1 == c) = none := by
    rw [List.find?_eq_none]
    intro x hx
    simp only [beq_iff_eq]
    intro hxc
    exact h (List.mem_map.mpr ⟨x, hx, hxc⟩)
  simp [mapChar, hf]

/-- A glyph-table map preserves the `p`-filtered subsequence when no key
and no value of the table is a `p`-character. -/
theorem mapChar_filter (p : Char → Bool) {assoc : List (Char × Char)}
    (h : ∀ pr ∈ assoc, p pr.1 = false ∧ p pr.2 = false) :
    ∀ l : List Char, (l.map (mapChar assoc)).filter p = l.filter p := by
  have key : ∀ c : Char,
      (p c = true → mapChar assoc c = c) ∧ p (mapChar assoc c) = p c := by
    intro c
    rcases hfc : assoc.find? (fun pr => pr.1 == c) with _ | pr
    · simp [mapChar, hfc]
    · have hmem := List.mem_of_find?_eq_some hfc
      have heq := List.find?_some hfc
      have hc : pr.1 = c := by simpa using heq
      refine ⟨fun hpc => ?_, ?_⟩
      · rw [← hc, (h pr hmem).1] at hpc
        exact absurd hpc (by simp)
      · simp only [mapChar, hfc]
        rw [(h pr hmem).2, ← hc, (h pr hmem).1]
  intro l
  induction l with
  | nil => rfl
  | cons c rest ih =>
    simp only [List.map_cons, List.filter_cons]
    cases hpc : p c with
    | false =>
      have hmc : p (mapChar assoc c) = false := by rw [(key c).2, hpc]
      simp [hmc, ih]
    | true =>
      have hfix : mapChar assoc c = c := (key c).1 hpc
      have hmc : p (mapChar assoc c) = true := by rw [(key c).2, hpc]
      simp [hmc, hpc, hfix, ih]

/-- The strikethrough transformation preserves the `p`-filtered
subsequence when the combining mark is not a `p`-character. -/
theorem toStrikethroughUnicode_filter (p : Char → Bool)
    (hm : p strikeMark = false) :
    ∀ l : List Char, (toStrikethroughUnicode l).filter p = l.filter p := by
  intro l
  induction l with
  | nil => rfl
  | cons c rest ih =>
    rw [show toStrikethroughUnicode (c :: rest)
        = c :: strikeMark :: toStrikethroughUnicode rest from rfl]
    simp only [List.filter_cons, hm, ih]
    cases p c <;> simp

/-- Wrapping a list between two non-`p` characters preserves the
`p`-filtered subsequence (the curly-quote replacement shape). -/
theorem wrap_filter (p : Char → Bool) {a b : Char}
    (ha : p a = false) (hb : p b = false) (l : List Char) :
    ((a :: l ++ [b]).filter p) = l.filter p := by
  simp [List.filter_cons, List.filter_append, ha, hb]

/-- On text with no emoji-classified scalar value the emoji spacer is
the identity. -/
theorem improveEmojiSpacing_of_plain :
    ∀ {l : List Char},
    (∀ c ∈ l, isEmojiPresentation c = false ∧ isEmoji c = false) →
    improveEmojiSpacing l = l := by
  intro l
  induction l with
  | nil => intro _; rfl
  | cons c rest ih =>
    intro h
    have hc := h c (List.mem_cons_self c rest)
    cases rest with
    | nil => simp [improveEmojiSpacing, hc.1]
    | cons c2 rest2 =>
      have htail : ∀ x ∈ c2 :: rest2,
          isEmojiPresentation x = false ∧ isEmoji x = false :=
        fun x hx => h x (List.mem_cons_of_mem c hx)
      rw [show improveEmojiSpacing (c :: c2 :: rest2)
          = if isEmojiPresentation c then
              c :: zwsp :: improveEmojiSpacing (c2 :: rest2)
            else if isEmoji c ∧ c2 = vs16 then
              c :: c2 :: zwsp :: improveEmojiSpacing rest2
            else c :: improveEmojiSpacing (c2 :: rest2) from rfl]
      rw [if_neg (by simp [hc.1]), if_neg (by simp [hc.2]), ih htail]

/-- The emoji spacer only inserts zero-width spaces, hence preserves the
`p`-filtered subsequence for any `p` rejecting the zero-width space. -/
theorem improveEmojiSpacing_filter (p : Char → Bool) (hz : p zwsp = false) :
    ∀ l : List Char, (improveEmojiSpacing l).filter p = l.filter p := by
  have H : ∀ (n : Nat) (l : List Char), l.length ≤ n →
      (improveEmojiSpacing l).filter p = l.filter p := by
    intro n
    induction n with
    | zero =>
      intro l h
      have : l = [] := List.eq_nil_of_length_eq_zero (Nat.le_zero.mp h)
      subst this
      rfl
    | succ n ih =>
      intro l h
      rcases l with _ | ⟨c, _ | ⟨c2, rest⟩⟩
      · rfl
      · by_cases hep : isEmojiPresentation c
        · simp [improveEmojiSpacing, hep, List.filter_cons, hz]
        · simp [improveEmojiSpacing, hep]
      · simp only [List.length_cons] at h
        by_cases hep : isEmojiPresentation c
        · rw [show improveEmojiSpacing (c :: c2 :: rest)
              = c :: zwsp :: improveEmojiSpacing (c2 :: rest) from by
                simp [improveEmojiSpacing, hep]]
          simp [List.filter_cons, hz, ih (c2 :: rest) (by simp; omega)]
        · by_cases hem : isEmoji c ∧ c2 = vs16
          · rw [show improveEmojiSpacing (c :: c2 :: rest)
                = c :: c2 :: zwsp :: improveEmojiSpacing rest from by
                  simp [improveEmojiSpacing, hep, hem]]
            simp [List.filter_cons, hz, ih rest (by omega)]
          · rw [show improveEmojiSpacing (c :: c2 :: rest)
                = c :: improveEmojiSpacing (c2 :: rest) from by
                  simp [improveEmojiSpacing, hep, hem]]
            simp [List.filter_cons, ih (c2 :: rest) (by simp; omega)]
  exact fun l => H l.length l le_rfl

/-- The emoji spacer never removes a zero-width space. -/
theorem improveEmojiSpacing_zwsp_le : ∀ l : List Char,
    l.countP (fun c => c == zwsp) ≤
      (improveEmojiSpacing l).countP (fun c => c == zwsp) := by
  have H : ∀ (n : Nat) (l : List Char), l.length ≤ n →
      l.countP (fun c => c == zwsp) ≤
        (improveEmojiSpacing l).countP (fun c => c == zwsp) := by
    intro n
    induction n with
    | zero =>
      intro l h
      have : l = [] := List.eq_nil_of_length_eq_zero (Nat.le_zero.mp h)
      subst this
      exact Nat.le_refl _
    | succ n ih =>
      intro l h
      rcases l with _ | ⟨c, _ | ⟨c2, rest⟩⟩
      · exact Nat.le_refl _
      · by_cases hep : isEmojiPresentation c
        · simp [improveEmojiSpacing, hep, List.countP_cons]
        · simp [improveEmojiSpacing, hep]
      · simp only [List.length_cons] at h
        by_cases hep : isEmojiPresentation c
        · rw [show improveEmojiSpacing (c :: c2 :: rest)
              = c :: zwsp :: improveEmojiSpacing (c2 :: rest) from by
                simp [improveEmojiSpacing, hep]]
          have := ih (c2 :: rest) (by simp; omega)
          simp [List.countP_cons] at this ⊢
          omega
        · by_cases hem : isEmoji c ∧ c2 = vs16
          · rw [show improveEmojiSpacing (c :: c2 :: rest)
                = c :: c2 :: zwsp :: improveEmojiSpacing rest from by
                  simp [improveEmojiSpacing, hep, hem]]
            have := ih rest (by omega)
            simp [List.countP_cons] at this ⊢
            omega
          · rw [show improveEmojiSpacing (c :: c2 :: rest)
                = c :: improveEmojiSpacing (c2 :: rest) from by
                  simp [improveEmojiSpacing, hep, hem]]
            have := ih (c2 :: rest) (by simp; omega)
            simp [List.countP_cons] at this ⊢
            omega
  exact fun l => H l.length l le_rfl

/-- On text containing a default-emoji-presentation scalar the emoji
spacer strictly increases the number of zero-width spaces. -/
theorem improveEmojiSpacing_zwsp_lt :
    ∀ l : List Char, (∃ c ∈ l, isEmojiPresentation c = true) →
    l.countP (fun c => c == zwsp) <
      (improveEmojiSpacing l).countP (fun c => c == zwsp) := by
  have H : ∀ (n : Nat) (l : List Char), l.length ≤ n →
      (∃ c ∈ l, isEmojiPresentation c = true) →
      l.countP (fun c => c == zwsp) <
        (improveEmojiSpacing l).countP (fun c => c == zwsp) := by
    intro n
    induction n with
    | zero =>
      intro l h hex
      have : l = [] := List.eq_nil_of_length_eq_zero (Nat.le_zero.mp h)
      subst this
      simp at hex
    | succ n ih =>
      intro l h hex
      rcases l with _ | ⟨c, _ | ⟨c2, rest⟩⟩
      · simp at hex
      · obtain ⟨x, hx, hxep⟩ := hex
        simp only [List.mem_singleton] at hx
        subst hx
        simp [improveEmojiSpacing, hxep, List.countP_cons]
      · simp only [List.length_cons] at h
        by_cases hep : isEmojiPresentation c
        · rw [show improveEmojiSpacing (c :: c2 :: rest)
              = c :: zwsp :: improveEmojiSpacing (c2 :: rest) from by
                simp [improveEmojiSpacing, hep]]
          have := improveEmojiSpacing_zwsp_le (c2 :: rest)
          simp [List.countP_cons] at this ⊢
          omega
        · by_cases hem : isEmoji c ∧ c2 = vs16
          · rw [show improveEmojiSpacing (c :: c2 :: rest)
                = c :: c2 :: zwsp :: improveEmojiSpacing rest from by
                  simp [improveEmojiSpacing, hep, hem]]
            have := improveEmojiSpacing_zwsp_le rest
            simp [List.countP_cons] at this ⊢
            omega
          · rw [show improveEmojiSpacing (c :: c2 :: rest)
                = c :: improveEmojiSpacing (c2 :: rest) from by
                  simp [improveEmojiSpacing, hep, hem]]
            have hex2 : ∃ x ∈ c2 :: rest, isEmojiPresentation x = true := by
              obtain ⟨x, hx, hxep⟩ := hex
              rcases List.mem_cons.mp hx with hxc | hxr
              · subst hxc; exact absurd hxep (by simp [hep])
              · exact ⟨x, hxr, hxep⟩
            have := ih (c2 :: rest) (by simp; omega) hex2
            simp [List.countP_cons] at this ⊢
            omega
  exact fun l => H l.length l le_rfl

/-! ### Pipeline-level counting lemmas -/

/-- `toBoldUnicode` preserves the `p`-filtered subsequence when no bold
key or glyph is a `p`-character. -/
theorem toBoldUnicode_filter (p : Char → Bool)
    (h : ∀ pr ∈ boldAssoc, p pr.1 = false ∧ p pr.2 = false) :
    ∀ l : List Char, (toBoldUnicode l).filter p = l.filter p :=
  fun l => mapChar_filter p h l

/-- `toItalicUnicode` preserves the `p`-filtered subsequence when no
italic key or glyph is a `p`-character. -/
theorem toItalicUnicode_filter (p : Char → Bool)
    (h : ∀ pr ∈ italicAssoc, p pr.1 = false ∧ p pr.2 = false) :
    ∀ l : List Char, (toItalicUnicode l).filter p = l.filter p :=
  fun l => mapChar_filter p h l

/-- `toMonospaceUnicode` preserves the `p`-filtered subsequence when no
monospace key or glyph is a `p`-character. -/
theorem toMonospaceUnicode_filter (p : Char → Bool)
    (h : ∀ pr ∈ monospaceAssoc, p pr.1 = false ∧ p pr.2 = false) :
    ∀ l : List Char, (toMonospaceUnicode l).filter p = l.filter p :=
  fun l => mapChar_filter p h l

/-- The five style and quote passes preserve the number of
`p`-characters whenever `p` rejects every delimiter, every quote
character (straight and curly), the combining mark and every glyph-table
key and value. -/
theorem stylePasses_countP (p : Char → Bool)
    (h1 : p '*' = false) (h2 : p '_' = false) (h3 : p '~' = false)
    (h4 : p backtick = false) (h5 : p (Char.ofNat 0x22) = false)
    (h6 : p (Char.ofNat 0x27) = false)
    (h7 : p (Char.ofNat 0x201C) = false) (h8 : p (Char.ofNat 0x201D) = false)
    (h9 : p (Char.ofNat 0x2018) = false) (h10 : p (Char.ofNat 0x2019) = false)
    (h11 : p strikeMark = false)
    (hB : ∀ pr ∈ boldAssoc, p pr.1 = false ∧ p pr.2 = false)
    (hI : ∀ pr ∈ italicAssoc, p pr.1 = false ∧ p pr.2 = false)
    (hM : ∀ pr ∈ monospaceAssoc, p pr.1 = false ∧ p pr.2 = false)
    (l : List Char) :
    (convertQuotes (convertMonospace (convertStrikethrough
      (convertItalic (convertBold l))))).countP p = l.countP p := by
  rw [List.countP_eq_length_filter, List.countP_eq_length_filter]
  unfold convertQuotes convertMonospace convertStrikethrough convertItalic convertBold
  rw [rewriteSpans_filter p h6 (fun l2 => wrap_filter p h9 h10 l2),
      rewriteSpans_filter p h5 (fun l2 => wrap_filter p h7 h8 l2),
      rewriteMono_filter p h4 (toMonospaceUnicode_filter p hM),
      rewriteSpans_filter p h3 (toStrikethroughUnicode_filter p h11),
      rewriteSpans_filter p h2 (toItalicUnicode_filter p hI),
      rewriteSpans_filter p h1 (toBoldUnicode_filter p hB)]

/-- The emoji spacer preserves the number of `p`-characters when `p`
rejects the zero-width space. -/
theorem improveEmojiSpacing_countP (p : Char → Bool) (hz : p zwsp = false)
    (l : List Char) :
    (improveEmojiSpacing l).countP p = l.countP p := by
  rw [List.countP_eq_length_filter, List.countP_eq_length_filter,
    improveEmojiSpacing_filter p hz]

/-- One-step unfolding of `rewriteSpansF` on a cons cell. -/
theorem rewriteSpansF_cons {α : Type} [DecidableEq α] (d : α)
    (f : List α → List α)
    (fuel : Nat) (c : α) (rest : List α) :
    rewriteSpansF d f (fuel + 1) (c :: rest) =
      if c = d then
        match findClose d rest with
        | some (i :: interior, post) => f (i :: interior) ++ rewriteSpansF d f fuel post
        | some ([], _) => c :: rewriteSpansF d f fuel rest
        | none => c :: rest
      else c :: rewriteSpansF d f fuel rest := rfl

/-- One-step unfolding of `rewriteMonoF` on three leading characters. -/
theorem rewriteMonoF_cons (f : List Char → List Char) (fuel : Nat)
    (c1 c2 c3 : Char) (rest : List Char) :
    rewriteMonoF f (fuel + 1) (c1 :: c2 :: c3 :: rest) =
      if c1 = backtick ∧ c2 = backtick ∧ c3 = backtick then
        match monoSplit rest with
        | some (i :: interior, post) => f (i :: interior) ++ rewriteMonoF f fuel post
        | some ([], _) => c1 :: rewriteMonoF f fuel (c2 :: c3 :: rest)
        | none => c1 :: rewriteMonoF f fuel (c2 :: c3 :: rest)
      else c1 :: rewriteMonoF f fuel (c2 :: c3 :: rest) := rfl

/-! ### Single-step behaviour of the scanners -/

/-- The scanner is the identity on the empty text. -/
theorem rewriteSpans_nil {α : Type} [DecidableEq α] (d : α)
    (f : List α → List α) : rewriteSpans d f [] = [] := rfl

/-- A non-delimiter head is emitted verbatim and scanning continues. -/
theorem rewriteSpans_cons_ne {α : Type} [DecidableEq α] (d : α)
    (f : List α → List α) {c : α} (rest : List α) (h : c ≠ d) :
    rewriteSpans d f (c :: rest) = c :: rewriteSpans d f rest := by
  unfold rewriteSpans
  rw [show (c :: rest).length = rest.length + 1 from rfl,
    rewriteSpansF_cons, if_neg h]

/-- At an opening delimiter, the nearest-close span with nonempty
delimiter-free interior is consumed and scanning resumes after it. -/
theorem rewriteSpans_span_step {α : Type} [DecidableEq α] (d : α)
    (f : List α → List α) {interior post : List α}
    (hd : d ∉ interior) (hne : interior ≠ []) :
    rewriteSpans d f (d :: (interior ++ d :: post)) =
      f interior ++ rewriteSpans d f post := by
  rcases interior with _ | ⟨i, int⟩
  · exact absurd rfl hne
  · unfold rewriteSpans
    rw [show (d :: ((i :: int) ++ d :: post)).length
        = ((i :: int) ++ d :: post).length + 1 from rfl]
    rw [rewriteSpansF_cons, if_pos rfl, findClose_append hd]
    dsimp only
    have hfe : rewriteSpansF d f ((i :: int) ++ d :: post).length post
        = rewriteSpans d f post :=
      rewriteSpansF_eq (by simp only [List.length_append, List.length_cons]; omega)
    rw [hfe]
    rfl

/-- At two adjacent delimiters the first is emitted verbatim (the empty
interior fails the nonempty interior class) and the scan advances one
position. -/
theorem rewriteSpans_empty_step {α : Type} [DecidableEq α] (d : α)
    (f : List α → List α) (rest : List α) :
    rewriteSpans d f (d :: d :: rest) = d :: rewriteSpans d f (d :: rest) := by
  unfold rewriteSpans
  rw [show (d :: d :: rest).length = (d :: rest).length + 1 from rfl]
  rw [rewriteSpansF_cons, if_pos rfl, show findClose d (d :: rest)
    = some ([], rest) from by simp [findClose]]

/-- An opening delimiter with no later closing delimiter is emitted
verbatim together with the whole remaining text. -/
theorem rewriteSpans_unmatched_step {α : Type} [DecidableEq α] (d : α)
    (f : List α → List α) {rest : List α} (h : d ∉ rest) :
    rewriteSpans d f (d :: rest) = d :: rest := by
  unfold rewriteSpans
  rw [show (d :: rest).length = rest.length + 1 from rfl]
  rw [rewriteSpansF_cons, if_pos rfl, findClose_of_not_mem h]

/-- The monospace scanner is the identity on texts of at most two
characters. -/
theorem rewriteMono_short (f : List Char → List Char) :
    rewriteMono f [] = [] ∧ (∀ c : Char, rewriteMono f [c] = [c]) ∧
      ∀ c1 c2 : Char, rewriteMono f [c1, c2] = [c1, c2] :=
  ⟨rfl, fun _ => rfl, fun _ _ => rfl⟩

/-- A head that does not open a triple-backtick marker is emitted
verbatim: the first character is not a backtick. -/
theorem rewriteMono_cons_ne (f : List Char → List Char) {c : Char}
    (rest : List Char) (h : c ≠ backtick) :
    rewriteMono f (c :: rest) = c :: rewriteMono f rest := by
  rcases rest with _ | ⟨x, _ | ⟨y, r⟩⟩
  · rfl
  · rfl
  · unfold rewriteMono
    rw [show (c :: x :: y :: r).length = (x :: y :: r).length + 1 from rfl,
      rewriteMonoF_cons, if_neg (by intro hx; exact h hx.1)]

/-- A head that does not open a triple-backtick marker is emitted
verbatim: the second character is not a backtick. -/
theorem rewriteMono_cons2_ne (f : List Char → List Char) {c2 : Char}
    (rest : List Char) (h : c2 ≠ backtick) :
    rewriteMono f (backtick :: c2 :: rest) =
      backtick :: rewriteMono f (c2 :: rest) := by
  rcases rest with _ | ⟨y, r⟩
  · rfl
  · unfold rewriteMono
    rw [show (backtick :: c2 :: y :: r).length
        = (c2 :: y :: r).length + 1 from rfl,
      rewriteMonoF_cons, if_neg (by intro hx; exact h hx.2.1)]

/-- A head that does not open a triple-backtick marker is emitted
verbatim: the third character is not a backtick. -/
theorem rewriteMono_cons3_ne (f : List Char → List Char) {c3 : Char}
    (rest : List Char) (h : c3 ≠ backtick) :
    rewriteMono f (backtick :: backtick :: c3 :: rest) =
      backtick :: rewriteMono f (backtick :: c3 :: rest) := by
  unfold rewriteMono
  rw [show (backtick :: backtick :: c3 :: rest).length
      = (backtick :: c3 :: rest).length + 1 from rfl,
    rewriteMonoF_cons, if_neg (by intro hx; exact h hx.2.2)]

/-- At an opening triple backtick, the nearest-close span with nonempty
backtick-free interior is consumed and scanning resumes after it. -/
theorem rewriteMono_span_step (f : List Char → List Char)
    {interior post : List Char}
    (hb : backtick ∉ interior) (hne : interior ≠ []) :
    rewriteMono f (backtick :: backtick :: backtick ::
        (interior ++ backtick :: backtick :: backtick :: post)) =
      f interior ++ rewriteMono f post := by
  rcases interior with _ | ⟨i, int⟩
  · exact absurd rfl hne
  · unfold rewriteMono
    rw [show (backtick :: backtick :: backtick ::
        ((i :: int) ++ backtick :: backtick :: backtick :: post)).length
        = (backtick :: backtick ::
            ((i :: int) ++ backtick :: backtick :: backtick :: post)).length + 1
        from rfl]
    rw [rewriteMonoF_cons, if_pos ⟨rfl, rfl, rfl⟩, monoSplit_append hb]
    dsimp only
    have hfe : rewriteMonoF f (backtick :: backtick ::
        ((i :: int) ++ backtick :: backtick :: backtick :: post)).length post
        = rewriteMono f post :=
      rewriteMonoF_eq (by simp only [List.length_append, List.length_cons]; omega)
    rw [hfe]
    rfl

/-- At an opening triple backtick with no following span (no nonempty
backtick-free interior closed by a further triple backtick), the first
backtick is emitted verbatim and the scan advances one position. -/
theorem rewriteMono_advance_step (f : List Char → List Char)
    {rest : List Char}
    (h : monoSplit rest = none ∨ ∃ post, monoSplit rest = some ([], post)) :
    rewriteMono f (backtick :: backtick :: backtick :: rest) =
      backtick :: rewriteMono f (backtick :: backtick :: rest) := by
  unfold rewriteMono
  rw [show (backtick :: backtick :: backtick :: rest).length
      = (backtick :: backtick :: rest).length + 1 from rfl,
    rewriteMonoF_cons, if_pos ⟨rfl, rfl, rfl⟩]
  rcases h with h | ⟨post, h⟩ <;> rw [h]

/-! ### Encoding lemmas relating scalar values and code units -/

/-- Two characters with the same scalar value are equal. -/
theorem char_toNat_inj {c1 c2 : Char} (h : c1.toNat = c2.toNat) : c1 = c2 := by
  cases c1 with
  | mk v1 h1 =>
    cases c2 with
    | mk v2 h2 =>
      have hv : v1 = v2 := UInt32.toNat.inj h
      subst hv
      rfl

/-- A scalar value is below the surrogate range or above it. -/
theorem char_valid_nat (c : Char) :
    c.toNat < 0xD800 ∨ (0xDFFF < c.toNat ∧ c.toNat < 0x110000) := c.valid

/-- A Basic-Multilingual-Plane scalar is its own single code unit. -/
theorem utf16Encode_bmp {c : Char} (h : c.toNat < 0x10000) :
    utf16Encode c = [c.toNat] := by
  unfold utf16Encode
  rw [if_pos h]

/-- A supplementary scalar encodes as a high/low surrogate pair. -/
theorem utf16Encode_astral {c : Char} (h : 0x10000 ≤ c.toNat) :
    utf16Encode c = [0xD800 + (c.toNat - 0x10000) / 0x400,
      0xDC00 + (c.toNat - 0x10000) % 0x400] := by
  unfold utf16Encode
  rw [if_neg (by omega)]

/-- Every scalar contributes at least one code unit. -/
theorem utf16Encode_ne_nil (c : Char) : utf16Encode c ≠ [] := by
  unfold utf16Encode
  split <;> simp

/-- Unfolding of `utf16Units` on a cons cell. -/
theorem utf16Units_cons (c : Char) (l : List Char) :
    utf16Units (c :: l) = utf16Encode c ++ utf16Units l := rfl

/-- `utf16Units` distributes over append. -/
theorem utf16Units_append (l1 l2 : List Char) :
    utf16Units (l1 ++ l2) = utf16Units l1 ++ utf16Units l2 := by
  simp [utf16Units]

/-- Both units of a supplementary scalar are surrogates. -/
theorem utf16Encode_astral_bounds {c : Char} (h : 0x10000 ≤ c.toNat) :
    ∀ u ∈ utf16Encode c, 0xD800 ≤ u ∧ u ≤ 0xDFFF := by
  have hv := char_valid_nat c
  rw [utf16Encode_astral h]
  intro u hu
  simp only [List.mem_cons, List.not_mem_nil, or_false] at hu
  rcases hu with h1 | h2 <;> exact ⟨by omega, by omega⟩

/-- No code unit of a scalar different from `n` equals a low code
point `n`. -/
theorem utf16Encode_unit_ne {c : Char} {n : Nat} (hn : n < 0xD800)
    (hcn : c.toNat ≠ n) : ∀ u ∈ utf16Encode c, u ≠ n := by
  by_cases hc : c.toNat < 0x10000
  · rw [utf16Encode_bmp hc]
    intro u hu
    simp only [List.mem_singleton] at hu
    subst hu
    exact hcn
  · intro u hu
    have := utf16Encode_astral_bounds (by omega) u hu
    omega

/-- A low code point absent as a scalar is absent as a code unit. -/
theorem not_mem_utf16Units {d : Char} (hd : d.toNat < 0xD800) :
    ∀ {l : List Char}, d ∉ l → d.toNat ∉ utf16Units l := by
  intro l
  induction l with
  | nil =>
    intro _
    simp [utf16Units]
  | cons c rest ih =>
    intro h
    simp only [List.mem_cons, not_or] at h
    rw [utf16Units_cons]
    intro hmem
    rcases List.mem_append.mp hmem with hm | hm
    · have hcn : c.toNat ≠ d.toNat := fun he => h.1 (char_toNat_inj he).symm
      exact utf16Encode_unit_ne hd hcn _ hm rfl
    · exact ih h.2 hm

/-- UTF-16 encoding is injective on scalar sequences. -/
theorem utf16Units_inj : ∀ {l1 l2 : List Char},
    utf16Units l1 = utf16Units l2 → l1 = l2 := by
  intro l1
  induction l1 with
  | nil =>
    intro l2 h
    cases l2 with
    | nil => rfl
    | cons c r =>
      rw [utf16Units_cons] at h
      cases henc : utf16Encode c with
      | nil => exact absurd henc (utf16Encode_ne_nil c)
      | cons u us =>
        rw [henc] at h
        simp [utf16Units] at h
  | cons c1 r1 ih =>
    intro l2 h
    cases l2 with
    | nil =>
      rw [utf16Units_cons] at h
      cases henc : utf16Encode c1 with
      | nil => exact absurd henc (utf16Encode_ne_nil c1)
      | cons u us =>
        rw [henc] at h
        simp [utf16Units] at h
    | cons c2 r2 =>
      rw [utf16Units_cons, utf16Units_cons] at h
      have hv1 := char_valid_nat c1
      have hv2 := char_valid_nat c2
      by_cases h1 : c1.toNat < 0x10000 <;> by_cases h2 : c2.toNat < 0x10000
      · rw [utf16Encode_bmp h1, utf16Encode_bmp h2] at h
        simp only [List.singleton_append, List.cons.injEq] at h
        rw [char_toNat_inj h.1, ih h.2]
      · rw [utf16Encode_bmp h1, utf16Encode_astral (by omega)] at h
        simp only [List.singleton_append, List.cons_append, List.cons.injEq] at h
        omega
      · rw [utf16Encode_astral (by omega), utf16Encode_bmp h2] at h
        simp only [List.singleton_append, List.cons_append, List.cons.injEq] at h
        omega
      · rw [utf16Encode_astral (by omega), utf16Encode_astral (by omega)] at h
        simp only [List.cons_append, List.nil_append, List.cons.injEq] at h
        have heq : c1.toNat = c2.toNat := by omega
        rw [char_toNat_inj heq, ih h.2.2]

/-! ### Commutation of the passes with UTF-16 encoding -/

/-- When `findClose` fails the delimiter does not occur. -/
theorem findClose_none_not_mem {α : Type} [DecidableEq α] {d : α} :
    ∀ {l : List α}, findClose d l = none → d ∉ l := by
  intro l
  induction l with
  | nil =>
    intro _
    simp
  | cons c rest ih =>
    intro h
    by_cases hc : c = d
    · simp [findClose, hc] at h
    · rcases hfc : findClose d rest with _ | pr
      · simp only [List.mem_cons, not_or]
        exact ⟨fun hdc => hc hdc.symm, ih hfc⟩
      · simp [findClose, hc, hfc] at h

/-- A delimiter-free prefix passes through the scanner verbatim and
scanning continues on the remainder. -/
theorem rewriteSpans_prefix {α : Type} [DecidableEq α] (d : α)
    (f : List α → List α) {pre : List α} (rest : List α)
    (hp : ∀ u ∈ pre, u ≠ d) :
    rewriteSpans d f (pre ++ rest) = pre ++ rewriteSpans d f rest := by
  induction pre with
  | nil => simp
  | cons u pre2 ihp =>
    have hu : u ≠ d := hp u (List.mem_cons_self u pre2)
    rw [List.cons_append, rewriteSpans_cons_ne d f _ hu,
      ihp (fun x hx => hp x (List.mem_cons_of_mem u hx)), List.cons_append]

/-- One-character-delimiter span rewriting commutes with UTF-16
encoding whenever the delimiter is a low BMP code point and the interior
transformation commutes: the code-unit pass and the scalar pass compute
the same string. -/
theorem rewriteSpans_commute {d : Char} (hd : d.toNat < 0xD800)
    {f : List Char → List Char} {f16 : List Nat → List Nat}
    (hf : ∀ interior, utf16Units (f interior) = f16 (utf16Units interior)) :
    ∀ l : List Char, utf16Units (rewriteSpans d f l)
      = rewriteSpans d.toNat f16 (utf16Units l) := by
  have H : ∀ (n : Nat) (l : List Char), l.length ≤ n →
      utf16Units (rewriteSpans d f l)
        = rewriteSpans d.toNat f16 (utf16Units l) := by
    intro n
    induction n with
    | zero =>
      intro l h
      have : l = [] := List.eq_nil_of_length_eq_zero (Nat.le_zero.mp h)
      subst this
      rfl
    | succ n ih =>
      intro l h
      cases l with
      | nil => rfl
      | cons c rest =>
        simp only [List.length_cons, Nat.add_le_add_iff_right] at h
        by_cases hc : c = d
        · subst hc
          rcases hfc : findClose c rest with _ | ⟨interior, post⟩
          · have hnm := findClose_none_not_mem hfc
            rw [rewriteSpans_unmatched_step c f hnm, utf16Units_cons,
              utf16Encode_bmp (by omega), List.singleton_append,
              rewriteSpans_unmatched_step _ f16 (not_mem_utf16Units hd hnm)]
          · obtain ⟨hrest, hnm⟩ := findClose_some hfc
            cases interior with
            | nil =>
              simp only [List.nil_append] at hrest
              subst hrest
              rw [rewriteSpans_empty_step, utf16Units_cons,
                utf16Encode_bmp (by omega), List.singleton_append,
                ih (c :: post) (by simpa using h)]
              rw [show utf16Units (c :: c :: post)
                  = c.toNat :: c.toNat :: utf16Units post from by
                rw [utf16Units_cons, utf16Units_cons, utf16Encode_bmp (by omega)]
                rfl]
              rw [rewriteSpans_empty_step]
              rw [show utf16Units (c :: post)
                  = c.toNat :: utf16Units post from by
                rw [utf16Units_cons, utf16Encode_bmp (by omega)]
                rfl]
            | cons i int =>
              subst hrest
              have hpost : post.length ≤ n := by
                simp only [List.length_append, List.length_cons] at h
                omega
              rw [rewriteSpans_span_step c f hnm (by simp), utf16Units_append,
                hf, ih post hpost]
              rw [show utf16Units (c :: ((i :: int) ++ c :: post))
                  = c.toNat :: (utf16Units (i :: int)
                      ++ c.toNat :: utf16Units post) from by
                rw [utf16Units_cons, utf16Encode_bmp (by omega),
                  List.singleton_append, utf16Units_append,
                  show utf16Units (c :: post) = c.toNat :: utf16Units post from by
                    rw [utf16Units_cons, utf16Encode_bmp (by omega)]
                    rfl]]
              rw [rewriteSpans_span_step _ f16 (not_mem_utf16Units hd hnm)
                (by
                  rw [utf16Units_cons]
                  intro hx
                  exact utf16Encode_ne_nil i (List.append_eq_nil.mp hx).1)]
        · rw [rewriteSpans_cons_ne d f rest hc, utf16Units_cons,
            utf16Units_cons, ih rest h,
            rewriteSpans_prefix _ f16 _
              (utf16Encode_unit_ne hd (fun he => hc (char_toNat_inj he)))]
  exact fun l => H l.length l le_rfl

/-- Per-character commutation of a glyph table with UTF-16 encoding,
provided every key is a low BMP code point. -/
theorem mapChar_commute {assoc : List (Char × Char)}
    (hk : ∀ pr ∈ assoc, pr.1.toNat < 0xD800) (c : Char) :
    utf16Encode (mapChar assoc c)
      = (utf16Encode c).flatMap
          (mapCharU16 (assoc.map (fun pr => (pr.1.toNat, utf16Encode pr.2)))) := by
  by_cases hb : c.toNat < 0x10000
  · rw [utf16Encode_bmp hb]
    rw [show ([c.toNat] : List Nat).flatMap
        (mapCharU16 (assoc.map (fun pr => (pr.1.toNat, utf16Encode pr.2))))
        = mapCharU16 (assoc.map (fun pr => (pr.1.toNat, utf16Encode pr.2)))
            c.toNat from by simp]
    unfold mapChar mapCharU16
    rw [List.find?_map]
    rw [show ((fun pr => pr.1 == c.toNat) ∘
        (fun pr => (pr.1.toNat, utf16Encode pr.2)) : Char × Char → Bool)
        = (fun pr => pr.1 == c) from by
      funext pr
      simp only [Function.comp_apply]
      by_cases hpc : pr.1 = c
      · simp [hpc]
      · have hne : pr.1.toNat ≠ c.toNat := fun he => hpc (char_toNat_inj he)
        simp [hpc, hne]]
    cases hfc : assoc.find? (fun pr => pr.1 == c) with
    | none =>
      dsimp only [Option.map]
      rw [utf16Encode_bmp hb]
    | some pr =>
      dsimp only [Option.map]
  · have hast : 0x10000 ≤ c.toNat := by omega
    have hbounds := utf16Encode_astral_bounds hast
    have hmiss : mapChar assoc c = c := by
      apply mapChar_of_not_mem
      intro hmem
      obtain ⟨pr, hpr, hpc⟩ := List.mem_map.mp hmem
      have := hk pr hpr
      rw [hpc] at this
      omega
    rw [hmiss]
    have hsingle : ∀ u ∈ utf16Encode c,
        mapCharU16 (assoc.map (fun pr => (pr.1.toNat, utf16Encode pr.2))) u
          = [u] := by
      intro u hu
      have hsur := hbounds u hu
      unfold mapCharU16
      rw [show (assoc.map (fun pr => (pr.1.toNat, utf16Encode pr.2))).find?
          (fun pr => pr.1 == u) = none from by
        rw [List.find?_eq_none]
        intro x hx
        obtain ⟨pr, hpr, hpx⟩ := List.mem_map.mp hx
        have := hk pr hpr
        simp only [beq_iff_eq]
        rw [← hpx]
        omega]
    have h1 := hsingle (0xD800 + (c.toNat - 0x10000) / 0x400)
      (by rw [utf16Encode_astral hast]; simp)
    have h2 := hsingle (0xDC00 + (c.toNat - 0x10000) % 0x400)
      (by rw [utf16Encode_astral hast]; simp)
    rw [utf16Encode_astral hast]
    simp [h1, h2]

/-- Per-character map / flatMap commutation with UTF-16 encoding. -/
theorem mapList_commute {assoc : List (Char × Char)}
    (hk : ∀ pr ∈ assoc, pr.1.toNat < 0xD800) :
    ∀ l : List Char, utf16Units (l.map (mapChar assoc))
      = (utf16Units l).flatMap
          (mapCharU16 (assoc.map (fun pr => (pr.1.toNat, utf16Encode pr.2)))) := by
  intro l
  induction l with
  | nil => rfl
  | cons c rest ih =>
    rw [List.map_cons, utf16Units_cons, utf16Units_cons, List.flatMap_append,
      ih, mapChar_commute hk]

/-- The backtick scalar is the code unit `0x60`. -/
theorem backtick_toNat : backtick.toNat = 0x60 := by decide

/-- Characterisation of a successful `monoSplit16`. -/
theorem monoSplit16_some : ∀ {l interior post : List Nat},
    monoSplit16 l = some (interior, post) →
    l = interior ++ 0x60 :: 0x60 :: 0x60 :: post ∧ (0x60 : Nat) ∉ interior := by
  intro l
  induction l with
  | nil => intro interior post h; simp [monoSplit16] at h
  | cons c rest ih =>
    intro interior post h
    by_cases hc : c = 0x60
    · rcases rest with _ | ⟨c2, _ | ⟨c3, post2⟩⟩
      · simp [monoSplit16, hc] at h
      · simp [monoSplit16, hc] at h
      · by_cases h23 : c2 = 0x60 ∧ c3 = 0x60
        · simp only [monoSplit16, if_pos hc, if_pos h23, Option.some.injEq,
            Prod.mk.injEq] at h
          obtain ⟨h1, h2⟩ := h
          subst h1; subst h2; subst hc
          obtain ⟨hb2, hb3⟩ := h23
          subst hb2; subst hb3
          simp
        · simp [monoSplit16, hc, h23] at h
    · rcases hms : monoSplit16 rest with _ | ⟨pre, post2⟩
      · simp [monoSplit16, hc, hms] at h
      · simp only [monoSplit16, if_neg hc, hms, Option.some.injEq,
          Prod.mk.injEq] at h
        obtain ⟨h1, h2⟩ := h
        subst h1; subst h2
        obtain ⟨hrest, hnm⟩ := ih hms
        subst hrest
        refine ⟨rfl, ?_⟩
        simp only [List.mem_cons, not_or]
        exact ⟨fun hbc => hc hbc.symm, hnm⟩

/-- `monoSplit16` splits exactly at the nearest backtick unit when a
literal triple backtick starts there. -/
theorem monoSplit16_append :
    ∀ {interior post : List Nat}, (0x60 : Nat) ∉ interior →
    monoSplit16 (interior ++ 0x60 :: 0x60 :: 0x60 :: post) =
      some (interior, post) := by
  intro interior
  induction interior with
  | nil => intro post _; simp [monoSplit16]
  | cons c pre ih =>
    intro post h
    simp only [List.mem_cons, not_or] at h
    have hc : ¬ c = 0x60 := fun hcb => h.1 hcb.symm
    simp only [List.cons_append, monoSplit16, if_neg hc, List.append_eq, ih h.2]

/-- Fuel irrelevance for `rewriteMonoF16`. -/
theorem rewriteMonoF16_congr {f : List Nat → List Nat} :
    ∀ (fuel1 fuel2 : Nat) (l : List Nat), l.length ≤ fuel1 → l.length ≤ fuel2 →
    rewriteMonoF16 f fuel1 l = rewriteMonoF16 f fuel2 l := by
  intro fuel1
  induction fuel1 with
  | zero =>
    intro fuel2 l h1 _
    have : l = [] := List.eq_nil_of_length_eq_zero (Nat.le_zero.mp h1)
    subst this
    cases fuel2 <;> simp [rewriteMonoF16]
  | succ n ih =>
    intro fuel2 l h1 h2
    cases fuel2 with
    | zero =>
      have : l = [] := List.eq_nil_of_length_eq_zero (Nat.le_zero.mp h2)
      subst this
      simp [rewriteMonoF16]
    | succ m =>
      rcases l with _ | ⟨c1, _ | ⟨c2, _ | ⟨c3, rest⟩⟩⟩
      · simp [rewriteMonoF16]
      · simp [rewriteMonoF16]
      · simp [rewriteMonoF16]
      · simp only [List.length_cons] at h1 h2
        simp only [rewriteMonoF16]
        by_cases hb : c1 = 0x60 ∧ c2 = 0x60 ∧ c3 = 0x60
        · simp only [if_pos hb]
          rcases hms : monoSplit16 rest with _ | ⟨interior, post⟩
          · dsimp only
            rw [ih m (c2 :: c3 :: rest) (by simp; omega) (by simp; omega)]
          · obtain ⟨hrest, -⟩ := monoSplit16_some hms
            cases interior with
            | nil =>
              dsimp only
              rw [ih m (c2 :: c3 :: rest) (by simp; omega) (by simp; omega)]
            | cons i int =>
              have hpost : post.length ≤ rest.length := by
                subst hrest; simp; omega
              dsimp only
              rw [ih m post (by omega) (by omega)]
        · simp only [if_neg hb]
          rw [ih m (c2 :: c3 :: rest) (by simp; omega) (by simp; omega)]

/-- Sufficient fuel computes `rewriteMono16`. -/
theorem rewriteMonoF16_eq {f : List Nat → List Nat} {fuel : Nat}
    {l : List Nat} (h : l.length ≤ fuel) :
    rewriteMonoF16 f fuel l = rewriteMono16 f l :=
  rewriteMonoF16_congr fuel l.length l h le_rfl

/-- One-step unfolding of `rewriteMonoF16` on three leading units. -/
theorem rewriteMonoF16_cons (f : List Nat → List Nat) (fuel : Nat)
    (u1 u2 u3 : Nat) (rest : List Nat) :
    rewriteMonoF16 f (fuel + 1) (u1 :: u2 :: u3 :: rest) =
      if u1 = 0x60 ∧ u2 = 0x60 ∧ u3 = 0x60 then
        match monoSplit16 rest with
        | some (i :: interior, post) => f (i :: interior) ++ rewriteMonoF16 f fuel post
        | some ([], _) => u1 :: rewriteMonoF16 f fuel (u2 :: u3 :: rest)
        | none => u1 :: rewriteMonoF16 f fuel (u2 :: u3 :: rest)
      else u1 :: rewriteMonoF16 f fuel (u2 :: u3 :: rest) := rfl

/-- A head unit that is not a backtick is emitted verbatim. -/
theorem rewriteMono16_cons_ne (f : List Nat → List Nat) {u : Nat}
    (tail : List Nat) (h : u ≠ 0x60) :
    rewriteMono16 f (u :: tail) = u :: rewriteMono16 f tail := by
  rcases tail with _ | ⟨x, _ | ⟨y, r⟩⟩
  · rfl
  · rfl
  · unfold rewriteMono16
    rw [show (u :: x :: y :: r).length = (x :: y :: r).length + 1 from rfl,
      rewriteMonoF16_cons, if_neg (by intro hx; exact h hx.1)]

/-- A backtick followed by a non-backtick unit is emitted verbatim. -/
theorem rewriteMono16_cons2_ne (f : List Nat → List Nat) {u2 : Nat}
    (tail : List Nat) (h : u2 ≠ 0x60) :
    rewriteMono16 f (0x60 :: u2 :: tail) =
      0x60 :: rewriteMono16 f (u2 :: tail) := by
  rcases tail with _ | ⟨y, r⟩
  · rfl
  · unfold rewriteMono16
    rw [show ((0x60 : Nat) :: u2 :: y :: r).length
        = (u2 :: y :: r).length + 1 from rfl,
      rewriteMonoF16_cons, if_neg (by intro hx; exact h hx.2.1)]

/-- Two backticks followed by a non-backtick unit: the first backtick is
emitted verbatim. -/
theorem rewriteMono16_cons3_ne (f : List Nat → List Nat) {u3 : Nat}
    (tail : List Nat) (h : u3 ≠ 0x60) :
    rewriteMono16 f (0x60 :: 0x60 :: u3 :: tail) =
      0x60 :: rewriteMono16 f (0x60 :: u3 :: tail) := by
  unfold rewriteMono16
  rw [show ((0x60 : Nat) :: 0x60 :: u3 :: tail).length
      = ((0x60 : Nat) :: u3 :: tail).length + 1 from rfl,
    rewriteMonoF16_cons, if_neg (by intro hx; exact h hx.2.2)]

/-- Span consumption at the code-unit level. -/
theorem rewriteMono16_span_step (f : List Nat → List Nat)
    {interior post : List Nat}
    (hb : (0x60 : Nat) ∉ interior) (hne : interior ≠ []) :
    rewriteMono16 f (0x60 :: 0x60 :: 0x60 ::
        (interior ++ 0x60 :: 0x60 :: 0x60 :: post)) =
      f interior ++ rewriteMono16 f post := by
  rcases interior with _ | ⟨i, int⟩
  · exact absurd rfl hne
  · unfold rewriteMono16
    rw [show ((0x60 : Nat) :: 0x60 :: 0x60 ::
        ((i :: int) ++ 0x60 :: 0x60 :: 0x60 :: post)).length
        = ((0x60 : Nat) :: 0x60 ::
            ((i :: int) ++ 0x60 :: 0x60 :: 0x60 :: post)).length + 1
        from rfl]
    rw [rewriteMonoF16_cons, if_pos ⟨rfl, rfl, rfl⟩, monoSplit16_append hb]
    dsimp only
    have hfe : rewriteMonoF16 f ((0x60 : Nat) :: 0x60 ::
        ((i :: int) ++ 0x60 :: 0x60 :: 0x60 :: post)).length post
        = rewriteMono16 f post :=
      rewriteMonoF16_eq (by simp only [List.length_append, List.length_cons]; omega)
    rw [hfe]
    rfl

/-- Failed span at an opening triple backtick: advance one unit. -/
theorem rewriteMono16_advance_step (f : List Nat → List Nat)
    {rest : List Nat}
    (h : monoSplit16 rest = none ∨ ∃ post, monoSplit16 rest = some ([], post)) :
    rewriteMono16 f (0x60 :: 0x60 :: 0x60 :: rest) =
      0x60 :: rewriteMono16 f (0x60 :: 0x60 :: rest) := by
  unfold rewriteMono16
  rw [show ((0x60 : Nat) :: 0x60 :: 0x60 :: rest).length
      = ((0x60 : Nat) :: 0x60 :: rest).length + 1 from rfl,
    rewriteMonoF16_cons, if_pos ⟨rfl, rfl, rfl⟩]
  rcases h with h | ⟨post, h⟩ <;> rw [h]

/-- The backtick scalar encodes as the single unit `0x60`. -/
theorem utf16Encode_backtick : utf16Encode backtick = [0x60] := by decide

/-- Stepping `monoSplit16` over one non-backtick unit. -/
theorem monoSplit16_cons_ne {u : Nat} (h : u ≠ 0x60) (tail : List Nat) :
    monoSplit16 (u :: tail)
      = Option.map (fun pr => (u :: pr.1, pr.2)) (monoSplit16 tail) := by
  cases hms : monoSplit16 tail with
  | none => simp [monoSplit16, h, hms]
  | some pr => obtain ⟨pre, post⟩ := pr; simp [monoSplit16, h, hms]

/-- Stepping `monoSplit16` over a backtick-free prefix. -/
theorem monoSplit16_pre {pre : List Nat} (tail : List Nat)
    (hp : ∀ u ∈ pre, u ≠ 0x60) :
    monoSplit16 (pre ++ tail)
      = Option.map (fun pr => (pre ++ pr.1, pr.2)) (monoSplit16 tail) := by
  induction pre with
  | nil =>
    rw [List.nil_append]
    cases hms : monoSplit16 tail with
    | none => rfl
    | some pr => obtain ⟨p1, p2⟩ := pr; rfl
  | cons u pre2 ihp =>
    rw [List.cons_append,
      monoSplit16_cons_ne (hp u (List.mem_cons_self u pre2)) _,
      ihp (fun x hx => hp x (List.mem_cons_of_mem u hx))]
    cases monoSplit16 tail with
    | none => rfl
    | some pr => obtain ⟨p1, p2⟩ := pr; rfl

/-- A head backtick whose two following units are not both backticks opens
no triple-backtick marker. -/
theorem monoSplit16_bt_fail {u2 u3 : Nat} (tail : List Nat)
    (h : ¬(u2 = 0x60 ∧ u3 = 0x60)) :
    monoSplit16 (0x60 :: u2 :: u3 :: tail) = none := by
  have he : monoSplit16 (0x60 :: u2 :: u3 :: tail)
      = if u2 = 0x60 ∧ u3 = 0x60 then some ([], tail) else none := rfl
  rw [he, if_neg h]

/-- `monoSplit` commutes with UTF-16 encoding. -/
theorem monoSplit_commute : ∀ l : List Char,
    monoSplit16 (utf16Units l)
      = Option.map (fun pr => (utf16Units pr.1, utf16Units pr.2)) (monoSplit l) := by
  intro l
  induction l with
  | nil => rfl
  | cons c rest ih =>
    rw [utf16Units_cons]
    by_cases hc : c = backtick
    · subst hc
      rw [utf16Encode_backtick, List.singleton_append]
      rcases rest with _ | ⟨c2, rest2⟩
      · rfl
      · by_cases h2 : c2 = backtick
        · subst h2
          rw [utf16Units_cons, utf16Encode_backtick, List.singleton_append]
          rcases rest2 with _ | ⟨c3, rest3⟩
          · rfl
          · by_cases h3 : c3 = backtick
            · subst h3
              rw [utf16Units_cons, utf16Encode_backtick, List.singleton_append]
              rw [show monoSplit16 ((0x60 : Nat) :: 0x60 :: 0x60 :: utf16Units rest3)
                  = some ([], utf16Units rest3) from by simp [monoSplit16]]
              rw [show monoSplit (backtick :: backtick :: backtick :: rest3)
                  = some ([], rest3) from by simp [monoSplit]]
              rfl
            · have hn3 : c3.toNat ≠ 0x60 := by
                intro he
                exact h3 (char_toNat_inj (he.trans backtick_toNat.symm))
              rw [show monoSplit (backtick :: backtick :: c3 :: rest3)
                  = none from by simp [monoSplit, h3]]
              rw [utf16Units_cons]
              by_cases hb3 : c3.toNat < 0x10000
              · rw [utf16Encode_bmp hb3, List.singleton_append]
                simp [monoSplit16, hn3]
              · rw [utf16Encode_astral (by omega)]
                simp only [List.cons_append, List.nil_append]
                rw [monoSplit16_bt_fail _ (by omega)]
                rfl
        · have hn2 : c2.toNat ≠ 0x60 := by
            intro he
            exact h2 (char_toNat_inj (he.trans backtick_toNat.symm))
          rw [show monoSplit (backtick :: c2 :: rest2) = none from by
            rcases rest2 with _ | ⟨c3, rest3⟩
            · simp [monoSplit]
            · simp [monoSplit, h2]]
          rw [utf16Units_cons]
          by_cases hb2 : c2.toNat < 0x10000
          · rw [utf16Encode_bmp hb2, List.singleton_append]
            rcases hu : utf16Units rest2 with _ | ⟨y, tail⟩
            · simp [monoSplit16, hn2]
            · simp [monoSplit16, hn2]
          · rw [utf16Encode_astral (by omega)]
            simp only [List.cons_append, List.nil_append]
            rw [monoSplit16_bt_fail _ (by omega)]
            rfl
    · have hcn : c.toNat ≠ 0x60 := by
        intro he
        exact hc (char_toNat_inj (he.trans backtick_toNat.symm))
      have hpre : ∀ u ∈ utf16Encode c, u ≠ 0x60 :=
        utf16Encode_unit_ne (by omega) hcn
      rw [monoSplit16_pre _ hpre, ih]
      rw [show monoSplit (c :: rest)
          = Option.map (fun pr => (c :: pr.1, pr.2)) (monoSplit rest) from by
        cases hms : monoSplit rest with
        | none => simp [monoSplit, hc, hms]
        | some pr => obtain ⟨pre, post⟩ := pr; simp [monoSplit, hc, hms]]
      cases monoSplit rest with
      | none => rfl
      | some pr =>
        obtain ⟨pre, post⟩ := pr
        dsimp only [Option.map]
        rw [utf16Units_cons]

/-- A backtick-free unit prefix passes through the monospace rewriter
verbatim. -/
theorem rewriteMono16_pre (f : List Nat → List Nat) {pre : List Nat}
    (tail : List Nat) (hp : ∀ u ∈ pre, u ≠ 0x60) :
    rewriteMono16 f (pre ++ tail) = pre ++ rewriteMono16 f tail := by
  induction pre with
  | nil => simp
  | cons u pre2 ihp =>
    rw [List.cons_append,
      rewriteMono16_cons_ne f _ (hp u (List.mem_cons_self u pre2)),
      ihp (fun x hx => hp x (List.mem_cons_of_mem u hx)), List.cons_append]

/-- Triple-backtick span rewriting commutes with UTF-16 encoding
whenever the interior transformation does. -/
theorem rewriteMono_commute {f : List Char → List Char}
    {f16 : List Nat → List Nat}
    (hf : ∀ interior, utf16Units (f interior) = f16 (utf16Units interior)) :
    ∀ l : List Char, utf16Units (rewriteMono f l)
      = rewriteMono16 f16 (utf16Units l) := by
  have hne60 : ∀ {c : Char}, c ≠ backtick → ∀ u ∈ utf16Encode c, u ≠ 0x60 := by
    intro c hc
    refine utf16Encode_unit_ne (by omega) ?_
    intro he
    exact hc (char_toNat_inj (he.trans backtick_toNat.symm))
  have H : ∀ (n : Nat) (l : List Char), l.length ≤ n →
      utf16Units (rewriteMono f l) = rewriteMono16 f16 (utf16Units l) := by
    intro n
    induction n with
    | zero =>
      intro l h
      have : l = [] := List.eq_nil_of_length_eq_zero (Nat.le_zero.mp h)
      subst this
      rfl
    | succ n ih =>
      intro l h
      rcases l with _ | ⟨c, rest⟩
      · rfl
      · simp only [List.length_cons, Nat.add_le_add_iff_right] at h
        by_cases hc : c = backtick
        · subst hc
          rcases rest with _ | ⟨c2, rest2⟩
          · rfl
          · by_cases h2 : c2 = backtick
            · subst h2
              rcases rest2 with _ | ⟨c3, rest3⟩
              · rfl
              · by_cases h3 : c3 = backtick
                · subst h3
                  rcases hms : monoSplit rest3 with _ | ⟨interior, post⟩
                  · rw [rewriteMono_advance_step f (Or.inl hms),
                      utf16Units_cons, utf16Encode_backtick, List.singleton_append,
                      ih (backtick :: backtick :: rest3) (by simp at h ⊢; omega)]
                    rw [show utf16Units (backtick :: backtick :: backtick :: rest3)
                        = (0x60 : Nat) :: 0x60 :: 0x60 :: utf16Units rest3 from by
                      rw [utf16Units_cons, utf16Encode_backtick,
                        List.singleton_append, utf16Units_cons,
                        utf16Encode_backtick, List.singleton_append,
                        utf16Units_cons, utf16Encode_backtick,
                        List.singleton_append]]
                    rw [show utf16Units (backtick :: backtick :: rest3)
                        = (0x60 : Nat) :: 0x60 :: utf16Units rest3 from by
                      rw [utf16Units_cons, utf16Encode_backtick,
                        List.singleton_append, utf16Units_cons,
                        utf16Encode_backtick, List.singleton_append]]
                    rw [rewriteMono16_advance_step f16 (Or.inl (by
                      rw [monoSplit_commute rest3, hms]; rfl))]
                  · cases interior with
                    | nil =>
                      rw [rewriteMono_advance_step f (Or.inr ⟨post, hms⟩),
                        utf16Units_cons, utf16Encode_backtick, List.singleton_append,
                        ih (backtick :: backtick :: rest3) (by simp at h ⊢; omega)]
                      rw [show utf16Units (backtick :: backtick :: backtick :: rest3)
                          = (0x60 : Nat) :: 0x60 :: 0x60 :: utf16Units rest3 from by
                        rw [utf16Units_cons, utf16Encode_backtick,
                          List.singleton_append, utf16Units_cons,
                          utf16Encode_backtick, List.singleton_append,
                          utf16Units_cons, utf16Encode_backtick,
                          List.singleton_append]]
                      rw [show utf16Units (backtick :: backtick :: rest3)
                          = (0x60 : Nat) :: 0x60 :: utf16Units rest3 from by
                        rw [utf16Units_cons, utf16Encode_backtick,
                          List.singleton_append, utf16Units_cons,
                          utf16Encode_backtick, List.singleton_append]]
                      rw [rewriteMono16_advance_step f16 (Or.inr ⟨utf16Units post, by
                        rw [monoSplit_commute rest3, hms]; rfl⟩)]
                    | cons i int =>
                      obtain ⟨hrest, hnm⟩ := monoSplit_some hms
                      subst hrest
                      have hpost : post.length ≤ n := by
                        simp only [List.length_cons, List.length_append] at h
                        omega
                      rw [rewriteMono_span_step f hnm (by simp),
                        utf16Units_append, hf, ih post hpost]
                      rw [show utf16Units (backtick :: backtick :: backtick ::
                          ((i :: int) ++ backtick :: backtick :: backtick :: post))
                          = (0x60 : Nat) :: 0x60 :: 0x60 ::
                              (utf16Units (i :: int)
                                ++ 0x60 :: 0x60 :: 0x60 :: utf16Units post) from by
                        rw [utf16Units_cons, utf16Encode_backtick,
                          List.singleton_append, utf16Units_cons,
                          utf16Encode_backtick, List.singleton_append,
                          utf16Units_cons, utf16Encode_backtick,
                          List.singleton_append, utf16Units_append]
                        rw [show utf16Units (backtick :: backtick :: backtick :: post)
                            = (0x60 : Nat) :: 0x60 :: 0x60 :: utf16Units post from by
                          rw [utf16Units_cons, utf16Encode_backtick,
                            List.singleton_append, utf16Units_cons,
                            utf16Encode_backtick, List.singleton_append,
                            utf16Units_cons, utf16Encode_backtick,
                            List.singleton_append]]]
                      rw [rewriteMono16_span_step f16
                        (by
                          have := not_mem_utf16Units (d := backtick)
                            (by rw [backtick_toNat]; omega) hnm
                          rw [backtick_toNat] at this
                          exact this)
                        (by
                          rw [utf16Units_cons]
                          intro hx
                          exact utf16Encode_ne_nil i (List.append_eq_nil.mp hx).1)]
                · rcases henc : utf16Encode c3 with _ | ⟨x, xs⟩
                  · exact absurd henc (utf16Encode_ne_nil c3)
                  · have hx60 : x ≠ 0x60 := hne60 h3 x (by rw [henc]; simp)
                    rw [rewriteMono_cons3_ne f rest3 h3,
                      utf16Units_cons, utf16Encode_backtick, List.singleton_append,
                      ih (backtick :: c3 :: rest3) (by simp at h ⊢; omega)]
                    rw [show utf16Units (backtick :: backtick :: c3 :: rest3)
                        = (0x60 : Nat) :: 0x60 :: (x :: xs ++ utf16Units rest3) from by
                      rw [utf16Units_cons, utf16Encode_backtick,
                        List.singleton_append, utf16Units_cons,
                        utf16Encode_backtick, List.singleton_append,
                        utf16Units_cons, henc]]
                    rw [show utf16Units (backtick :: c3 :: rest3)
                        = (0x60 : Nat) :: (x :: xs ++ utf16Units rest3) from by
                      rw [utf16Units_cons, utf16Encode_backtick,
                        List.singleton_append, utf16Units_cons, henc]]
                    rw [show ((0x60 : Nat) :: 0x60 :: (x :: xs ++ utf16Units rest3))
                        = (0x60 : Nat) :: 0x60 :: x :: (xs ++ utf16Units rest3) from by
                      simp]
                    rw [rewriteMono16_cons3_ne f16 _ hx60]
                    rfl
            · rcases henc : utf16Encode c2 with _ | ⟨x, xs⟩
              · exact absurd henc (utf16Encode_ne_nil c2)
              · have hx60 : x ≠ 0x60 := hne60 h2 x (by rw [henc]; simp)
                rw [rewriteMono_cons2_ne f rest2 h2,
                  utf16Units_cons, utf16Encode_backtick, List.singleton_append,
                  ih (c2 :: rest2) (by simp at h ⊢; omega)]
                rw [show utf16Units (backtick :: c2 :: rest2)
                    = (0x60 : Nat) :: (x :: xs ++ utf16Units rest2) from by
                  rw [utf16Units_cons, utf16Encode_backtick,
                    List.singleton_append, utf16Units_cons, henc]]
                rw [show utf16Units (c2 :: rest2)
                    = x :: (xs ++ utf16Units rest2) from by
                  rw [utf16Units_cons, henc]; rfl]
                rw [show ((0x60 : Nat) :: (x :: xs ++ utf16Units rest2))
                    = (0x60 : Nat) :: x :: (xs ++ utf16Units rest2) from by simp]
                rw [rewriteMono16_cons2_ne f16 _ hx60]
        · rw [rewriteMono_cons_ne f rest hc, utf16Units_cons, utf16Units_cons,
            ih rest h, rewriteMono16_pre f16 _ (hne60 hc)]
  exact fun l => H l.length l le_rfl

/-- `utf16Units` of the empty list. -/
theorem utf16Units_nil : utf16Units [] = [] := rfl

/-- The zero-width space is the single unit `0x200B`. -/
theorem utf16Encode_zwsp : utf16Encode zwsp = [0x200B] := by decide

/-- The variation selector is the single unit `0xFE0F`. -/
theorem utf16Encode_vs16 : utf16Encode vs16 = [0xFE0F] := by decide

/-- The scalar number of the variation selector. -/
theorem vs16_toNat : vs16.toNat = 0xFE0F := by decide

/-- The spacer on a scalar with default emoji presentation: emit it,
then a zero-width space, and continue. -/
theorem improveEmojiSpacing_cons_EP {c : Char} (rest : List Char)
    (hp : isEmojiPresentation c = true) :
    improveEmojiSpacing (c :: rest) = c :: zwsp :: improveEmojiSpacing rest := by
  cases rest <;> simp [improveEmojiSpacing, hp]

/-- The spacer on a scalar in neither emoji class: emit it unchanged. -/
theorem improveEmojiSpacing_cons_plain {c : Char} (rest : List Char)
    (hp : isEmojiPresentation c = false) (he : isEmoji c = false) :
    improveEmojiSpacing (c :: rest) = c :: improveEmojiSpacing rest := by
  cases rest <;> simp [improveEmojiSpacing, hp, he]

/-- A final non-presentation scalar is emitted unchanged (the second
regex alternative needs a following variation selector). -/
theorem improveEmojiSpacing_single_nonEP {c : Char}
    (hp : isEmojiPresentation c = false) :
    improveEmojiSpacing [c] = [c] := by
  simp [improveEmojiSpacing, hp]

/-- The spacer on an emoji base followed by the variation selector. -/
theorem improveEmojiSpacing_cons_vs {c : Char} (rest : List Char)
    (hp : isEmojiPresentation c = false) (he : isEmoji c = true) :
    improveEmojiSpacing (c :: vs16 :: rest)
      = c :: vs16 :: zwsp :: improveEmojiSpacing rest := by
  simp [improveEmojiSpacing, hp, he]

/-- A non-presentation scalar not followed by the variation selector is
emitted unchanged and the scan continues at the next scalar. -/
theorem improveEmojiSpacing_cons_nvs {c c2 : Char} (rest : List Char)
    (hp : isEmojiPresentation c = false) (h2 : c2 ≠ vs16) :
    improveEmojiSpacing (c :: c2 :: rest)
      = c :: improveEmojiSpacing (c2 :: rest) := by
  simp [improveEmojiSpacing, hp, h2]

/-- The unit-level spacer on the empty unit list. -/
theorem spacerF_nil (n : Nat) : improveEmojiSpacingU16F n [] = [] := by
  cases n <;> rfl

/-- Unit-level spacer step: a non-surrogate presentation-emoji unit. -/
theorem spacerF_bmp_EP {u : Nat} (n : Nat) (rest : List Nat)
    (hs : ¬(0xD800 ≤ u ∧ u ≤ 0xDBFF))
    (hp : inRanges emojiPresentationRanges u = true) :
    improveEmojiSpacingU16F (n + 1) (u :: rest)
      = u :: 0x200B :: improveEmojiSpacingU16F n rest := by
  simp only [improveEmojiSpacingU16F]
  rw [if_neg hs, if_pos hp]

/-- Unit-level spacer step: a non-surrogate unit in neither class. -/
theorem spacerF_bmp_plain {u : Nat} (n : Nat) (rest : List Nat)
    (hs : ¬(0xD800 ≤ u ∧ u ≤ 0xDBFF))
    (hp : inRanges emojiPresentationRanges u = false)
    (he : inRanges emojiRanges u = false) :
    improveEmojiSpacingU16F (n + 1) (u :: rest)
      = u :: improveEmojiSpacingU16F n rest := by
  simp only [improveEmojiSpacingU16F]
  rw [if_neg hs, if_neg (by simp [hp]), if_neg (by simp [he])]

/-- Unit-level spacer step: a final emoji-base unit. -/
theorem spacerF_bmp_em_nil {u : Nat} (n : Nat)
    (hs : ¬(0xD800 ≤ u ∧ u ≤ 0xDBFF))
    (hp : inRanges emojiPresentationRanges u = false)
    (he : inRanges emojiRanges u = true) :
    improveEmojiSpacingU16F (n + 1) [u] = [u] := by
  simp only [improveEmojiSpacingU16F]
  rw [if_neg hs, if_neg (by simp [hp]), if_pos he]

/-- Unit-level spacer step: an emoji-base unit before the variation
selector. -/
theorem spacerF_bmp_vs {u : Nat} (n : Nat) (rest2 : List Nat)
    (hs : ¬(0xD800 ≤ u ∧ u ≤ 0xDBFF))
    (hp : inRanges emojiPresentationRanges u = false)
    (he : inRanges emojiRanges u = true) :
    improveEmojiSpacingU16F (n + 1) (u :: 0xFE0F :: rest2)
      = u :: 0xFE0F :: 0x200B :: improveEmojiSpacingU16F n rest2 := by
  simp only [improveEmojiSpacingU16F]
  rw [if_neg hs, if_neg (by simp [hp]), if_pos he, if_pos trivial]

/-- Unit-level spacer step: an emoji-base unit not followed by the
variation selector. -/
theorem spacerF_bmp_em_nvs {u u2 : Nat} (n : Nat) (rest2 : List Nat)
    (hs : ¬(0xD800 ≤ u ∧ u ≤ 0xDBFF))
    (hp : inRanges emojiPresentationRanges u = false)
    (he : inRanges emojiRanges u = true)
    (h2 : u2 ≠ 0xFE0F) :
    improveEmojiSpacingU16F (n + 1) (u :: u2 :: rest2)
      = u :: improveEmojiSpacingU16F n (u2 :: rest2) := by
  simp only [improveEmojiSpacingU16F]
  rw [if_neg hs, if_neg (by simp [hp]), if_pos he, if_neg h2]

/-- Unit-level spacer step: a surrogate pair decoding to a
presentation emoji. -/
theorem spacerF_pair_EP {u u2 : Nat} (n : Nat) (rest2 : List Nat)
    (hs : 0xD800 ≤ u ∧ u ≤ 0xDBFF) (hs2 : 0xDC00 ≤ u2 ∧ u2 ≤ 0xDFFF)
    (hp : inRanges emojiPresentationRanges
        (0x10000 + (u - 0xD800) * 0x400 + (u2 - 0xDC00)) = true) :
    improveEmojiSpacingU16F (n + 1) (u :: u2 :: rest2)
      = u :: u2 :: 0x200B :: improveEmojiSpacingU16F n rest2 := by
  simp only [improveEmojiSpacingU16F]
  rw [if_pos hs, if_pos hs2, if_pos hp]

/-- Unit-level spacer step: a surrogate pair decoding to a scalar in
neither class. -/
theorem spacerF_pair_plain {u u2 : Nat} (n : Nat) (rest2 : List Nat)
    (hs : 0xD800 ≤ u ∧ u ≤ 0xDBFF) (hs2 : 0xDC00 ≤ u2 ∧ u2 ≤ 0xDFFF)
    (hp : inRanges emojiPresentationRanges
        (0x10000 + (u - 0xD800) * 0x400 + (u2 - 0xDC00)) = false)
    (he : inRanges emojiRanges
        (0x10000 + (u - 0xD800) * 0x400 + (u2 - 0xDC00)) = false) :
    improveEmojiSpacingU16F (n + 1) (u :: u2 :: rest2)
      = u :: u2 :: improveEmojiSpacingU16F n rest2 := by
  simp only [improveEmojiSpacingU16F]
  rw [if_pos hs, if_pos hs2, if_neg (by simp [hp]), if_neg (by simp [he])]

/-- Unit-level spacer step: a final surrogate pair decoding to an
emoji base. -/
theorem spacerF_pair_em_nil {u u2 : Nat} (n : Nat)
    (hs : 0xD800 ≤ u ∧ u ≤ 0xDBFF) (hs2 : 0xDC00 ≤ u2 ∧ u2 ≤ 0xDFFF)
    (hp : inRanges emojiPresentationRanges
        (0x10000 + (u - 0xD800) * 0x400 + (u2 - 0xDC00)) = false)
    (he : inRanges emojiRanges
        (0x10000 + (u - 0xD800) * 0x400 + (u2 - 0xDC00)) = true) :
    improveEmojiSpacingU16F (n + 1) [u, u2] = [u, u2] := by
  simp only [improveEmojiSpacingU16F]
  rw [if_pos hs, if_pos hs2, if_neg (by simp [hp]), if_pos he]

/-- Unit-level spacer step: a surrogate pair decoding to an emoji base,
followed by the variation selector. -/
theorem spacerF_pair_vs {u u2 : Nat} (n : Nat) (rest3 : List Nat)
    (hs : 0xD800 ≤ u ∧ u ≤ 0xDBFF) (hs2 : 0xDC00 ≤ u2 ∧ u2 ≤ 0xDFFF)
    (hp : inRanges emojiPresentationRanges
        (0x10000 + (u - 0xD800) * 0x400 + (u2 - 0xDC00)) = false)
    (he : inRanges emojiRanges
        (0x10000 + (u - 0xD800) * 0x400 + (u2 - 0xDC00)) = true) :
    improveEmojiSpacingU16F (n + 1) (u :: u2 :: 0xFE0F :: rest3)
      = u :: u2 :: 0xFE0F :: 0x200B :: improveEmojiSpacingU16F n rest3 := by
  simp only [improveEmojiSpacingU16F]
  rw [if_pos hs, if_pos hs2, if_neg (by simp [hp]), if_pos he, if_pos trivial]

/-- Unit-level spacer step: a surrogate pair decoding to an emoji
base, not followed by the variation selector. -/
theorem spacerF_pair_em_nvs {u u2 u3 : Nat} (n : Nat) (rest3 : List Nat)
    (hs : 0xD800 ≤ u ∧ u ≤ 0xDBFF) (hs2 : 0xDC00 ≤ u2 ∧ u2 ≤ 0xDFFF)
    (hp : inRanges emojiPresentationRanges
        (0x10000 + (u - 0xD800) * 0x400 + (u2 - 0xDC00)) = false)
    (he : inRanges emojiRanges
        (0x10000 + (u - 0xD800) * 0x400 + (u2 - 0xDC00)) = true)
    (h3 : u3 ≠ 0xFE0F) :
    improveEmojiSpacingU16F (n + 1) (u :: u2 :: u3 :: rest3)
      = u :: u2 :: improveEmojiSpacingU16F n (u3 :: rest3) := by
  simp only [improveEmojiSpacingU16F]
  rw [if_pos hs, if_pos hs2, if_neg (by simp [hp]), if_pos he, if_neg h3]

/-- The emoji spacer commutes with UTF-16 encoding: on a well-formed
unit stream (the encoding of a scalar list) the unit-level scan
reassembles exactly the scalar-level matches. -/
theorem improveEmojiSpacing_commute :
    ∀ l : List Char, utf16Units (improveEmojiSpacing l)
      = improveEmojiSpacingU16 (utf16Units l) := by
  have H : ∀ (n : Nat) (l : List Char), (utf16Units l).length ≤ n →
      utf16Units (improveEmojiSpacing l)
        = improveEmojiSpacingU16F n (utf16Units l) := by
    intro n
    induction n with
    | zero =>
      intro l h
      cases l with
      | nil => rfl
      | cons c rest =>
        exfalso
        rw [utf16Units_cons] at h
        rcases henc : utf16Encode c with _ | ⟨x, xs⟩
        · exact utf16Encode_ne_nil c henc
        · rw [henc] at h
          simp at h
    | succ n ih =>
      intro l h
      cases l with
      | nil => rfl
      | cons c rest =>
        rw [utf16Units_cons] at h ⊢
        by_cases hb : c.toNat < 0x10000
        · have hv := char_valid_nat c
          have hu : utf16Encode c = [c.toNat] := utf16Encode_bmp hb
          have hs : ¬(0xD800 ≤ c.toNat ∧ c.toNat ≤ 0xDBFF) := by omega
          rw [hu, List.singleton_append] at h ⊢
          simp only [List.length_cons] at h
          cases hEP : isEmojiPresentation c with
          | true =>
            have hEPu : inRanges emojiPresentationRanges c.toNat = true := hEP
            rw [spacerF_bmp_EP n _ hs hEPu,
              improveEmojiSpacing_cons_EP rest hEP,
              utf16Units_cons, utf16Units_cons, hu, utf16Encode_zwsp,
              ih rest (by omega)]
            simp
          | false =>
            have hEPu : inRanges emojiPresentationRanges c.toNat = false := hEP
            cases hEm : isEmoji c with
            | false =>
              have hEmu : inRanges emojiRanges c.toNat = false := hEm
              rw [spacerF_bmp_plain n _ hs hEPu hEmu,
                improveEmojiSpacing_cons_plain rest hEP hEm,
                utf16Units_cons, hu, ih rest (by omega)]
              simp
            | true =>
              have hEmu : inRanges emojiRanges c.toNat = true := hEm
              cases rest with
              | nil =>
                rw [show utf16Units ([] : List Char) = [] from rfl,
                  spacerF_bmp_em_nil n hs hEPu hEmu,
                  improveEmojiSpacing_single_nonEP hEP,
                  utf16Units_cons, hu]
                rfl
              | cons c2 rest2 =>
                by_cases h2 : c2 = vs16
                · subst h2
                  rw [utf16Units_cons, utf16Encode_vs16,
                    List.singleton_append] at h ⊢
                  simp only [List.length_cons] at h
                  rw [spacerF_bmp_vs n _ hs hEPu hEmu,
                    improveEmojiSpacing_cons_vs rest2 hEP hEm,
                    utf16Units_cons, utf16Units_cons, utf16Units_cons,
                    hu, utf16Encode_vs16, utf16Encode_zwsp,
                    ih rest2 (by omega)]
                  simp
                · rcases henc2 : utf16Encode c2 with _ | ⟨y, ys⟩
                  · exact absurd henc2 (utf16Encode_ne_nil c2)
                  · have hy : y ≠ 0xFE0F := by
                      by_cases hb2 : c2.toNat < 0x10000
                      · rw [utf16Encode_bmp hb2] at henc2
                        have hyc : y = c2.toNat := ((List.cons.injEq _ _ _ _).mp henc2).1.symm
                        rw [hyc]
                        intro he
                        exact h2 (char_toNat_inj (he.trans vs16_toNat.symm))
                      · have hbd := utf16Encode_astral_bounds (c := c2) (by omega)
                        have := hbd y (by rw [henc2]; simp)
                        omega
                    rw [show utf16Units (c2 :: rest2)
                        = y :: (ys ++ utf16Units rest2) from by
                      rw [utf16Units_cons, henc2]; rfl] at h ⊢
                    simp only [List.length_cons] at h
                    rw [spacerF_bmp_em_nvs n _ hs hEPu hEmu hy,
                      improveEmojiSpacing_cons_nvs rest2 hEP h2,
                      utf16Units_cons, hu,
                      show (y :: (ys ++ utf16Units rest2))
                        = utf16Units (c2 :: rest2) from by
                        rw [utf16Units_cons, henc2]; rfl,
                      ih (c2 :: rest2) (by
                        rw [show utf16Units (c2 :: rest2)
                            = y :: (ys ++ utf16Units rest2) from by
                          rw [utf16Units_cons, henc2]; rfl]
                        simp only [List.length_cons, List.length_append] at h ⊢
                        omega)]
                    simp
        · have hv := char_valid_nat c
          have h16 : 0x10000 ≤ c.toNat := by omega
          have hu : utf16Encode c = [0xD800 + (c.toNat - 0x10000) / 0x400,
              0xDC00 + (c.toNat - 0x10000) % 0x400] := utf16Encode_astral h16
          rw [hu] at h ⊢
          simp only [List.cons_append, List.nil_append] at h ⊢
          simp only [List.length_cons] at h
          have hs : 0xD800 ≤ 0xD800 + (c.toNat - 0x10000) / 0x400 ∧
              0xD800 + (c.toNat - 0x10000) / 0x400 ≤ 0xDBFF := by omega
          have hs2 : 0xDC00 ≤ 0xDC00 + (c.toNat - 0x10000) % 0x400 ∧
              0xDC00 + (c.toNat - 0x10000) % 0x400 ≤ 0xDFFF := by omega
          have hdec : 0x10000
              + ((0xD800 + (c.toNat - 0x10000) / 0x400) - 0xD800) * 0x400
              + ((0xDC00 + (c.toNat - 0x10000) % 0x400) - 0xDC00)
                = c.toNat := by omega
          cases hEP : isEmojiPresentation c with
          | true =>
            have hEPu : inRanges emojiPresentationRanges c.toNat = true := hEP
            rw [spacerF_pair_EP n _ hs hs2 (by rw [hdec]; exact hEPu),
              improveEmojiSpacing_cons_EP rest hEP,
              utf16Units_cons, utf16Units_cons, hu, utf16Encode_zwsp,
              ih rest (by omega)]
            simp
          | false =>
            have hEPu : inRanges emojiPresentationRanges c.toNat = false := hEP
            cases hEm : isEmoji c with
            | false =>
              have hEmu : inRanges emojiRanges c.toNat = false := hEm
              rw [spacerF_pair_plain n _ hs hs2 (by rw [hdec]; exact hEPu)
                  (by rw [hdec]; exact hEmu),
                improveEmojiSpacing_cons_plain rest hEP hEm,
                utf16Units_cons, hu, ih rest (by omega)]
              simp
            | true =>
              have hEmu : inRanges emojiRanges c.toNat = true := hEm
              cases rest with
              | nil =>
                rw [show utf16Units ([] : List Char) = [] from rfl,
                  spacerF_pair_em_nil n hs hs2 (by rw [hdec]; exact hEPu)
                    (by rw [hdec]; exact hEmu),
                  improveEmojiSpacing_single_nonEP hEP,
                  utf16Units_cons, hu]
                rfl
              | cons c2 rest2 =>
                by_cases h2 : c2 = vs16
                · subst h2
                  rw [utf16Units_cons, utf16Encode_vs16,
                    List.singleton_append] at h ⊢
                  simp only [List.length_cons] at h
                  rw [spacerF_pair_vs n _ hs hs2 (by rw [hdec]; exact hEPu)
                      (by rw [hdec]; exact hEmu),
                    improveEmojiSpacing_cons_vs rest2 hEP hEm,
                    utf16Units_cons, utf16Units_cons, utf16Units_cons,
                    hu, utf16Encode_vs16, utf16Encode_zwsp,
                    ih rest2 (by omega)]
                  simp
                · rcases henc2 : utf16Encode c2 with _ | ⟨y, ys⟩
                  · exact absurd henc2 (utf16Encode_ne_nil c2)
                  · have hy : y ≠ 0xFE0F := by
                      by_cases hb2 : c2.toNat < 0x10000
                      · rw [utf16Encode_bmp hb2] at henc2
                        have hyc : y = c2.toNat := ((List.cons.injEq _ _ _ _).mp henc2).1.symm
                        rw [hyc]
                        intro he
                        exact h2 (char_toNat_inj (he.trans vs16_toNat.symm))
                      · have hbd := utf16Encode_astral_bounds (c := c2) (by omega)
                        have := hbd y (by rw [henc2]; simp)
                        omega
                    rw [show utf16Units (c2 :: rest2)
                        = y :: (ys ++ utf16Units rest2) from by
                      rw [utf16Units_cons, henc2]; rfl] at h ⊢
                    simp only [List.length_cons] at h
                    rw [spacerF_pair_em_nvs n _ hs hs2
                        (by rw [hdec]; exact hEPu)
                        (by rw [hdec]; exact hEmu) hy,
                      improveEmojiSpacing_cons_nvs rest2 hEP h2,
                      utf16Units_cons, hu,
                      show (y :: (ys ++ utf16Units rest2))
                        = utf16Units (c2 :: rest2) from by
                        rw [utf16Units_cons, henc2]; rfl,
                      ih (c2 :: rest2) (by
                        rw [show utf16Units (c2 :: rest2)
                            = y :: (ys ++ utf16Units rest2) from by
                          rw [utf16Units_cons, henc2]; rfl]
                        simp only [List.length_cons, List.length_append] at h ⊢
                        omega)]
                    simp
  intro l
  exact H (utf16Units l).length l le_rfl

/-- `toBoldUnicode` commutes with UTF-16 encoding (every bold key is a
BMP scalar, so the unit-level lookup sees whole keys). -/
theorem toBoldUnicode_commute (l : List Char) :
    utf16Units (toBoldUnicode l) = toBoldUnicodeU16 (utf16Units l) :=
  mapList_commute (by decide) l

/-- `toItalicUnicode` commutes with UTF-16 encoding. -/
theorem toItalicUnicode_commute (l : List Char) :
    utf16Units (toItalicUnicode l) = toItalicUnicodeU16 (utf16Units l) :=
  mapList_commute (by decide) l

/-- `toMonospaceUnicode` commutes with UTF-16 encoding. -/
theorem toMonospaceUnicode_commute (l : List Char) :
    utf16Units (toMonospaceUnicode l) = toMonospaceUnicodeU16 (utf16Units l) :=
  mapList_commute (by decide) l

/-- The bold pass commutes with UTF-16 encoding. -/
theorem convertBold_commute (l : List Char) :
    utf16Units (convertBold l) = convertBoldU16 (utf16Units l) := by
  have h := @rewriteSpans_commute '*' (by decide) toBoldUnicode
    toBoldUnicodeU16 toBoldUnicode_commute l
  rw [show Char.toNat '*' = 0x2A from by decide] at h
  exact h

/-- The italic pass commutes with UTF-16 encoding. -/
theorem convertItalic_commute (l : List Char) :
    utf16Units (convertItalic l) = convertItalicU16 (utf16Units l) := by
  have h := @rewriteSpans_commute '_' (by decide) toItalicUnicode
    toItalicUnicodeU16 toItalicUnicode_commute l
  rw [show Char.toNat '_' = 0x5F from by decide] at h
  exact h

/-- The monospace pass commutes with UTF-16 encoding. -/
theorem convertMonospace_commute (l : List Char) :
    utf16Units (convertMonospace l) = convertMonospaceU16 (utf16Units l) :=
  @rewriteMono_commute toMonospaceUnicode toMonospaceUnicodeU16
    toMonospaceUnicode_commute l

/-- The quote pass commutes with UTF-16 encoding (delimiters and curly
replacements are all BMP scalars). -/
theorem convertQuotes_commute (l : List Char) :
    utf16Units (convertQuotes l) = convertQuotesU16 (utf16Units l) := by
  have hdq : ∀ interior : List Char,
      utf16Units (Char.ofNat 0x201C :: interior ++ [Char.ofNat 0x201D])
        = 0x201C :: utf16Units interior ++ [0x201D] := by
    intro interior
    rw [utf16Units_append, utf16Units_cons,
      show utf16Encode (Char.ofNat 0x201C) = [0x201C] from by decide,
      show utf16Units [Char.ofNat 0x201D] = [0x201D] from by decide]
    simp
  have hsq : ∀ interior : List Char,
      utf16Units (Char.ofNat 0x2018 :: interior ++ [Char.ofNat 0x2019])
        = 0x2018 :: utf16Units interior ++ [0x2019] := by
    intro interior
    rw [utf16Units_append, utf16Units_cons,
      show utf16Encode (Char.ofNat 0x2018) = [0x2018] from by decide,
      show utf16Units [Char.ofNat 0x2019] = [0x2019] from by decide]
    simp
  have hinner := @rewriteSpans_commute (Char.ofNat 0x22) (by decide)
      (fun interior => Char.ofNat 0x201C :: interior ++ [Char.ofNat 0x201D])
      (fun interior => 0x201C :: interior ++ [0x201D]) hdq l
  have houter := @rewriteSpans_commute (Char.ofNat 0x27) (by decide)
      (fun interior => Char.ofNat 0x2018 :: interior ++ [Char.ofNat 0x2019])
      (fun interior => 0x2018 :: interior ++ [0x2019]) hsq
      (rewriteSpans (Char.ofNat 0x22)
        (fun interior => Char.ofNat 0x201C :: interior ++ [Char.ofNat 0x201D]) l)
  rw [show (Char.ofNat 0x22).toNat = 0x22 from by decide] at hinner
  rw [show (Char.ofNat 0x27).toNat = 0x27 from by decide] at houter
  unfold convertQuotes convertQuotesU16
  rw [houter, hinner]

/-- The bold pass preserves any filtered subsequence avoiding its
delimiter, keys and glyphs. -/
theorem convertBold_filter (p : Char → Bool) (hd : p '*' = false)
    (hm : ∀ pr ∈ boldAssoc, p pr.1 = false ∧ p pr.2 = false) (l : List Char) :
    (convertBold l).filter p = l.filter p :=
  rewriteSpans_filter p hd (toBoldUnicode_filter p hm) l

/-- The italic pass preserves any filtered subsequence avoiding its
delimiter, keys and glyphs. -/
theorem convertItalic_filter (p : Char → Bool) (hd : p '_' = false)
    (hm : ∀ pr ∈ italicAssoc, p pr.1 = false ∧ p pr.2 = false) (l : List Char) :
    (convertItalic l).filter p = l.filter p :=
  rewriteSpans_filter p hd (toItalicUnicode_filter p hm) l

/-- The monospace pass preserves any filtered subsequence avoiding the
backtick, keys and glyphs. -/
theorem convertMonospace_filter (p : Char → Bool) (hd : p backtick = false)
    (hm : ∀ pr ∈ monospaceAssoc, p pr.1 = false ∧ p pr.2 = false)
    (l : List Char) :
    (convertMonospace l).filter p = l.filter p :=
  rewriteMono_filter p hd (toMonospaceUnicode_filter p hm) l

/-- The quote pass preserves any filtered subsequence avoiding the
straight and curly quote characters. -/
theorem convertQuotes_filter (p : Char → Bool)
    (h27 : p (Char.ofNat 0x27) = false) (h22 : p (Char.ofNat 0x22) = false)
    (hlq : p (Char.ofNat 0x2018) = false) (hrq : p (Char.ofNat 0x2019) = false)
    (hld : p (Char.ofNat 0x201C) = false) (hrd : p (Char.ofNat 0x201D) = false)
    (l : List Char) :
    (convertQuotes l).filter p = l.filter p := by
  unfold convertQuotes
  rw [rewriteSpans_filter p h27 (fun l2 => wrap_filter p hlq hrq l2),
    rewriteSpans_filter p h22 (fun l2 => wrap_filter p hld hrd l2)]

/-- A tilde-free text is still tilde-free after the bold and italic
passes (no table key or glyph is a tilde). -/
theorem tilde_not_mem_bold_italic {l : List Char} (h : '~' ∉ l) :
    '~' ∉ convertItalic (convertBold l) := by
  intro hmem
  have h1 : '~' ∈ (convertItalic (convertBold l)).filter (fun c => c == '~') :=
    List.mem_filter.mpr ⟨hmem, by decide⟩
  rw [convertItalic_filter _ (by decide) (by decide),
    convertBold_filter _ (by decide) (by decide)] at h1
  exact h (List.mem_filter.mp h1).1

/-- A tilde-free input yields a tilde-free converted output: the
strikethrough pass is the identity on it and no other pass can
introduce a tilde. -/
theorem tilde_not_mem_convert {t : String} (ht : '~' ∉ t.data) :
    '~' ∉ (convertToIOSStyle t).data := by
  have ht2 : '~' ∉ convertItalic (convertBold t.data) :=
    tilde_not_mem_bold_italic ht
  have hstr : convertStrikethrough (convertItalic (convertBold t.data))
      = convertItalic (convertBold t.data) := rewriteSpans_of_not_mem ht2
  intro hmem
  have h1 : '~' ∈ ((convertToIOSStyle t).data).filter (fun c => c == '~') :=
    List.mem_filter.mpr ⟨hmem, by decide⟩
  rw [show (convertToIOSStyle t).data
      = improveEmojiSpacing (convertQuotes (convertMonospace
          (convertStrikethrough (convertItalic (convertBold t.data))))) from rfl,
    hstr, improveEmojiSpacing_filter _ (by decide),
    convertQuotes_filter _ (by decide) (by decide) (by decide) (by decide)
      (by decide) (by decide),
    convertMonospace_filter _ (by decide) (by decide)] at h1
  exact ht2 (List.mem_filter.mp h1).1

/-- On tilde-free input the scalar-level pipeline computes exactly the
JS-faithful code-unit pipeline: every pass commutes with UTF-16
encoding unconditionally except strikethrough — the one place where
`split('')` sees surrogate halves rather than scalars — and without a
tilde that pass is the identity on both sides. -/
theorem convertToIOSStyle_commute_of_no_tilde {t : String}
    (ht : '~' ∉ t.data) :
    utf16Units (convertToIOSStyle t).data
      = convertToIOSStyleU16 (utf16Units t.data) := by
  have ht2 : '~' ∉ convertItalic (convertBold t.data) :=
    tilde_not_mem_bold_italic ht
  have hstr : convertStrikethrough (convertItalic (convertBold t.data))
      = convertItalic (convertBold t.data) := rewriteSpans_of_not_mem ht2
  have hstr16 : convertStrikethroughU16
        (utf16Units (convertItalic (convertBold t.data)))
      = utf16Units (convertItalic (convertBold t.data)) :=
    rewriteSpans_of_not_mem (by
      have h7e := @not_mem_utf16Units '~' (by decide) _ ht2
      rw [show Char.toNat '~' = 0x7E from by decide] at h7e
      exact h7e)
  rw [show (convertToIOSStyle t).data
      = improveEmojiSpacing (convertQuotes (convertMonospace
          (convertStrikethrough (convertItalic (convertBold t.data))))) from rfl,
    hstr, improveEmojiSpacing_commute, convertQuotes_commute,
    convertMonospace_commute, ← hstr16, convertItalic_commute,
    convertBold_commute]
  rfl

/-! ### Claim theorems -/

/-- C1: `convertToIOSStyle` is exactly the composition, in this fixed
order, of the six passes: bold span rewriting, then italic, then
strikethrough, then monospace, then quote normalization, then emoji
spacing; for every input the result equals applying these passes
sequentially, each pass consuming the previous pass's output. -/
theorem convertToIOSStyle_pipeline_order (t : String) :
    convertToIOSStyle t =
      String.mk (improveEmojiSpacing (convertQuotes (convertMonospace
        (convertStrikethrough (convertItalic (convertBold t.data)))))) := rfl

/-- C2: every span rewriter pairs an opening delimiter with the nearest
following closing delimiter (the interior is delimiter-free), replaces
the whole match by the transformed interior, and resumes scanning
immediately after the consumed span; in particular
`convert("*a*b*c*")` yields two bold spans with interiors `a` and `c`
and the literal `b` left plain between them. -/
theorem spanRewriter_lazy_nearest_close :
    (∀ (d : Char) (f : List Char → List Char) (interior post : List Char),
        d ∉ interior → interior ≠ [] →
        rewriteSpans d f (d :: (interior ++ d :: post)) =
          f interior ++ rewriteSpans d f post) ∧
    convertToIOSStyle "*a*b*c*" = "𝗮b𝗰" := by
  refine ⟨?_, by decide⟩
  intro d f interior post hd hne
  rcases interior with _ | ⟨i, int⟩
  · exact absurd rfl hne
  · unfold rewriteSpans
    rw [show (d :: ((i :: int) ++ d :: post)).length
        = ((i :: int) ++ d :: post).length + 1 from rfl]
    rw [rewriteSpansF_cons, if_pos rfl, findClose_append hd]
    dsimp only
    have hfe : rewriteSpansF d f ((i :: int) ++ d :: post).length post
        = rewriteSpans d f post :=
      rewriteSpansF_eq (by simp only [List.length_append, List.length_cons]; omega)
    rw [hfe]
    rfl

/-- C2 witness: the general lazy-pairing statement instantiated at the
bold delimiter with interior `a` and remainder `b`. -/
theorem spanRewriter_lazy_nearest_close_witness :
    rewriteSpans '*' toBoldUnicode ('*' :: (['a'] ++ '*' :: ['b'])) =
      toBoldUnicode ['a'] ++ rewriteSpans '*' toBoldUnicode ['b'] :=
  spanRewriter_lazy_nearest_close.1 '*' toBoldUnicode ['a'] ['b']
    (by decide) (by decide)

/-- C3 counterexample: the claim predicts that `"**"` is consumed as a
span with empty interior leaving the empty string, but every span
pattern requires a nonempty interior (`[^*]+`), so `convert("**")`
returns `"**"` unchanged, which is not the empty string. -/
theorem emptyInterior_not_collapsed_cex :
    convertToIOSStyle "**" = "**" ∧ ("**" : String) ≠ "" :=
  ⟨by decide, by decide⟩

/-- C3 amended: a zero-length interior does not form a span; at two
adjacent delimiters the first delimiter is emitted verbatim and the scan
advances past it, so for every style the adjacent delimiter pair is left
unchanged in the output. -/
theorem emptyInterior_left_verbatim :
    (∀ (d : Char) (f : List Char → List Char) (rest : List Char),
        rewriteSpans d f (d :: d :: rest) = d :: rewriteSpans d f (d :: rest)) ∧
    convertBold ("**".data) = "**".data ∧
    convertItalic ("__".data) = "__".data ∧
    convertStrikethrough ("~~".data) = "~~".data ∧
    convertMonospace ("``````".data) = "``````".data := by
  refine ⟨?_, by decide, by decide, by decide, by decide⟩
  intro d f rest
  unfold rewriteSpans
  rw [show (d :: d :: rest).length = (d :: rest).length + 1 from rfl]
  rw [rewriteSpansF_cons, if_pos rfl, show findClose d (d :: rest)
    = some ([], rest) from by simp [findClose]]

/-- C4 counterexample: the claim predicts that
`convert("```a`b```")` rewrites to the monospace transliteration of
the interior with a lone backtick; the interior class excludes every
backtick, so the input passes through unchanged instead. -/
theorem monospace_lone_backtick_cex :
    convertToIOSStyle "```a`b```" = "```a`b```" ∧
    convertToIOSStyle "```a`b```" ≠ String.mk (toMonospaceUnicode ("a`b".data)) :=
  ⟨by decide, by decide⟩

/-- C4 amended: the monospace rewriter scans for the literal
three-character triple-backtick close marker, but a span interior is
disqualified by containing any backtick at all (the class excludes
single backticks); a backtick-free nonempty interior forms a span, and
`"```a`b```"` passes through unchanged. -/
theorem monospace_interior_excludes_backtick :
    (∀ (f : List Char → List Char) (interior post : List Char),
        backtick ∉ interior → interior ≠ [] →
        rewriteMono f (backtick :: backtick :: backtick ::
            (interior ++ backtick :: backtick :: backtick :: post)) =
          f interior ++ rewriteMono f post) ∧
    convertToIOSStyle "```ab```" = "𝚊𝚋" ∧
    convertToIOSStyle "```a`b```" = "```a`b```" := by
  refine ⟨?_, by decide, by decide⟩
  intro f interior post hb hne
  rcases interior with _ | ⟨i, int⟩
  · exact absurd rfl hne
  · unfold rewriteMono
    rw [show (backtick :: backtick :: backtick ::
        ((i :: int) ++ backtick :: backtick :: backtick :: post)).length
        = (backtick :: backtick ::
            ((i :: int) ++ backtick :: backtick :: backtick :: post)).length + 1
        from rfl]
    rw [rewriteMonoF_cons, if_pos ⟨rfl, rfl, rfl⟩, monoSplit_append hb]
    dsimp only
    have hfe : rewriteMonoF f (backtick :: backtick ::
        ((i :: int) ++ backtick :: backtick :: backtick :: post)).length post
        = rewriteMono f post :=
      rewriteMonoF_eq (by simp only [List.length_append, List.length_cons]; omega)
    rw [hfe]
    rfl

/-- C4 witness: the general statement instantiated at the monospace
transformation with interior `ab` and empty remainder. -/
theorem monospace_interior_excludes_backtick_witness :
    rewriteMono toMonospaceUnicode (backtick :: backtick :: backtick ::
        (['a', 'b'] ++ backtick :: backtick :: backtick :: [])) =
      toMonospaceUnicode ['a', 'b'] ++ rewriteMono toMonospaceUnicode [] :=
  monospace_interior_excludes_backtick.1 toMonospaceUnicode ['a', 'b'] []
    (by decide) (by decide)

/-- C5: an opening delimiter with no following closing delimiter is
never consumed: the delimiter and all following text are emitted
verbatim; in particular `convert("*no close")` is unchanged. -/
theorem unmatched_delimiter_verbatim :
    (∀ (d : Char) (f : List Char → List Char) (rest : List Char),
        d ∉ rest → rewriteSpans d f (d :: rest) = d :: rest) ∧
    convertToIOSStyle "*no close" = "*no close" := by
  refine ⟨?_, by decide⟩
  intro d f rest h
  unfold rewriteSpans
  rw [show (d :: rest).length = rest.length + 1 from rfl]
  rw [rewriteSpansF_cons, if_pos rfl, findClose_of_not_mem h]

/-- C5 witness: the general statement instantiated at the bold delimiter
with remainder `no close`. -/
theorem unmatched_delimiter_verbatim_witness :
    rewriteSpans '*' toBoldUnicode ('*' :: "no close".data)
      = '*' :: "no close".data :=
  unmatched_delimiter_verbatim.1 '*' toBoldUnicode ("no close".data) (by decide)

/-- C6 counterexample: the claim predicts one U+0336 per Unicode scalar
value including outside the Basic Multilingual Plane, but the code
splits into UTF-16 code units (`split('')`), so the one-scalar interior
U+1F600 receives two marks, one per surrogate code unit. -/
theorem strikethrough_astral_two_marks_cex :
    (toStrikethroughUnicodeU16 (utf16Units [Char.ofNat 0x1F600])).count 0x336 = 2 ∧
    [Char.ofNat 0x1F600].length = 1 ∧ (2 : Nat) ≠ 1 :=
  ⟨by decide, by decide, by decide⟩

/-- C6 amended: the strikethrough transformation appends exactly one
U+0336 per UTF-16 code unit of the span interior (`split('')` iterates
code units, not scalar values); on interiors of Basic-Multilingual-Plane
scalars this is one mark per scalar value, and `convert("~Hi~")` yields
the four-scalar sequence H, U+0336, i, U+0336. -/
theorem strikethrough_one_mark_per_code_unit :
    (∀ units : List Nat,
        (toStrikethroughUnicodeU16 units).length = 2 * units.length ∧
        (toStrikethroughUnicodeU16 units).count 0x336
          = units.length + units.count 0x336) ∧
    (∀ l : List Char, (∀ c ∈ l, c.toNat < 0x10000) →
        utf16Units (toStrikethroughUnicode l)
          = toStrikethroughUnicodeU16 (utf16Units l)) ∧
    convertToIOSStyle "~Hi~" = String.mk ['H', strikeMark, 'i', strikeMark] ∧
    (String.mk ['H', strikeMark, 'i', strikeMark]).length
      = 2 * ("Hi" : String).length := by
  refine ⟨?_, ?_, by decide, by decide⟩
  · intro units
    induction units with
    | nil => exact ⟨rfl, rfl⟩
    | cons u rest ih =>
      rw [show toStrikethroughUnicodeU16 (u :: rest)
          = u :: 0x336 :: toStrikethroughUnicodeU16 rest from rfl]
      refine ⟨?_, ?_⟩
      · simp only [List.length_cons, ih.1]
        omega
      · simp [List.count_cons, List.length_cons, ih.2]
        omega
  · intro l
    induction l with
    | nil => intro _; rfl
    | cons c rest ih =>
      intro h
      have hc : c.toNat < 0x10000 := h c (List.mem_cons_self c rest)
      have hrest := fun x hx => h x (List.mem_cons_of_mem c hx)
      rw [show toStrikethroughUnicode (c :: rest)
          = c :: strikeMark :: toStrikethroughUnicode rest from rfl]
      rw [show utf16Units (c :: strikeMark :: toStrikethroughUnicode rest)
          = utf16Encode c ++ utf16Encode strikeMark
              ++ utf16Units (toStrikethroughUnicode rest) from by
        simp [utf16Units]]
      rw [show utf16Units (c :: rest) = utf16Encode c ++ utf16Units rest from by
        simp [utf16Units]]
      rw [ih hrest]
      rw [show utf16Encode c = [c.toNat] from by simp [utf16Encode, hc]]
      rw [show utf16Encode strikeMark = [0x336] from by decide]
      rw [show toStrikethroughUnicodeU16 ([c.toNat] ++ utf16Units rest)
          = c.toNat :: 0x336 :: toStrikethroughUnicodeU16 (utf16Units rest)
          from rfl]
      rfl

/-- C6 witness: the BMP agreement statement instantiated at the interior
`Hi`. -/
theorem strikethrough_one_mark_per_code_unit_witness :
    utf16Units (toStrikethroughUnicode ("Hi".data))
      = toStrikethroughUnicodeU16 (utf16Units ("Hi".data)) :=
  strikethrough_one_mark_per_code_unit.2.1 ("Hi".data) (by decide)

/-- C7: the italic table's key set is exactly the ASCII letters, while
the bold and monospace tables additionally map the digits; any character
outside a table's key set passes through `mapChar` unchanged, so the
digit in `convert("_a1_")` stays a plain ASCII `1` while the letter
becomes an italic glyph. -/
theorem glyphTable_domains :
    italicAssoc.map Prod.fst = asciiLetters ∧
    boldAssoc.map Prod.fst = asciiLetters ++ asciiDigits ∧
    monospaceAssoc.map Prod.fst = asciiLetters ++ asciiDigits ∧
    (∀ (assoc : List (Char × Char)) (c : Char),
        c ∉ assoc.map Prod.fst → mapChar assoc c = c) ∧
    convertToIOSStyle "_a1_" = "𝘢1" := by
  refine ⟨by decide, by decide, by decide, ?_, by decide⟩
  intro assoc c h
  exact mapChar_of_not_mem h

/-- C7 witness: the pass-through statement instantiated at the italic
table and the digit `1`, which is outside its key set. -/
theorem glyphTable_domains_witness : mapChar italicAssoc '1' = '1' :=
  glyphTable_domains.2.2.2.1 italicAssoc '1' (by decide)

/-- C8: on text containing no span delimiter, no straight quote and no
emoji-classified scalar value, the whole pipeline is the identity. -/
theorem convert_identity_on_plain (t : String)
    (h : ∀ c ∈ t.data,
        c ∉ (['*', '_', '~', backtick, Char.ofNat 0x22, Char.ofNat 0x27] : List Char)
        ∧ isEmojiPresentation c = false ∧ isEmoji c = false) :
    convertToIOSStyle t = t := by
  have hstar : '*' ∉ t.data := fun hm => (h _ hm).1 (by decide)
  have hund : '_' ∉ t.data := fun hm => (h _ hm).1 (by decide)
  have htil : '~' ∉ t.data := fun hm => (h _ hm).1 (by decide)
  have hbt : backtick ∉ t.data := fun hm => (h _ hm).1 (by decide)
  have hdq : Char.ofNat 0x22 ∉ t.data := fun hm => (h _ hm).1 (by decide)
  have hsq : Char.ofNat 0x27 ∉ t.data := fun hm => (h _ hm).1 (by decide)
  have hplain : ∀ c ∈ t.data, isEmojiPresentation c = false ∧ isEmoji c = false :=
    fun c hc => ⟨(h c hc).2.1, (h c hc).2.2⟩
  have hq : convertQuotes t.data = t.data := by
    unfold convertQuotes
    rw [rewriteSpans_of_not_mem hdq, rewriteSpans_of_not_mem hsq]
  show String.mk (improveEmojiSpacing (convertQuotes (convertMonospace
      (convertStrikethrough (convertItalic (convertBold t.data)))))) = t
  rw [show convertBold t.data = t.data from rewriteSpans_of_not_mem hstar,
    show convertItalic t.data = t.data from rewriteSpans_of_not_mem hund,
    show convertStrikethrough t.data = t.data from rewriteSpans_of_not_mem htil,
    show convertMonospace t.data = t.data from rewriteMono_of_not_mem hbt,
    hq, improveEmojiSpacing_of_plain hplain]

/-- C8 witness: the identity applied to the plain text `Hi there`. -/
theorem convert_identity_on_plain_witness :
    convertToIOSStyle "Hi there" = "Hi there" :=
  convert_identity_on_plain "Hi there" (by decide)

/-- C9: on any text with no remaining span delimiter, a further
application of the pipeline leaves the subsequence of styled glyphs
unchanged: the bold, italic and monospace glyphs lie outside every
delimiter pattern and outside the ASCII key sets of the glyph tables. -/
theorem second_convert_preserves_styled_glyphs (u : String)
    (h : ∀ c ∈ u.data, c ∉ (['*', '_', '~', backtick] : List Char)) :
    (convertToIOSStyle u).data.filter isStyledGlyph
      = u.data.filter isStyledGlyph := by
  have hstar : '*' ∉ u.data := fun hm => (h _ hm) (by decide)
  have hund : '_' ∉ u.data := fun hm => (h _ hm) (by decide)
  have htil : '~' ∉ u.data := fun hm => (h _ hm) (by decide)
  have hbt : backtick ∉ u.data := fun hm => (h _ hm) (by decide)
  show (improveEmojiSpacing (convertQuotes (convertMonospace
      (convertStrikethrough (convertItalic (convertBold u.data)))))).filter
        isStyledGlyph = u.data.filter isStyledGlyph
  rw [show convertBold u.data = u.data from rewriteSpans_of_not_mem hstar,
    show convertItalic u.data = u.data from rewriteSpans_of_not_mem hund,
    show convertStrikethrough u.data = u.data from rewriteSpans_of_not_mem htil,
    show convertMonospace u.data = u.data from rewriteMono_of_not_mem hbt,
    improveEmojiSpacing_filter isStyledGlyph (by decide)]
  unfold convertQuotes
  rw [rewriteSpans_filter isStyledGlyph (by decide)
      (fun l2 => wrap_filter isStyledGlyph (by decide) (by decide) l2),
    rewriteSpans_filter isStyledGlyph (by decide)
      (fun l2 => wrap_filter isStyledGlyph (by decide) (by decide) l2)]

/-- C9 witness: the statement applied to the delimiter-free styled text
consisting of the two bold glyphs of `Hi`. -/
theorem second_convert_preserves_styled_glyphs_witness :
    (convertToIOSStyle "𝗛𝗶").data.filter isStyledGlyph
      = "𝗛𝗶".data.filter isStyledGlyph :=
  second_convert_preserves_styled_glyphs "𝗛𝗶" (by decide)

/-- C10 counterexample: on `"~😀~"` the program is idempotent even
though the input contains a default-emoji-presentation scalar.  The
`split('')`-based strikethrough puts a U+0336 code unit between the two
surrogate halves of U+1F600; the emoji regex, which (with the `u` flag)
matches whole scalar values and never a lone surrogate, then finds no
match in the converted text, and a second conversion changes nothing —
refuting the claim's "for any input containing such a scalar". -/
theorem convert_idempotent_on_tilde_emoji_cex :
    convertToIOSStyleU16 (convertToIOSStyleU16 (utf16Units "~😀~".data))
        = convertToIOSStyleU16 (utf16Units "~😀~".data) ∧
      (∃ c ∈ "~😀~".data, isEmojiPresentation c = true) := by
  refine ⟨by decide, ⟨'😀', by decide, by decide⟩⟩

/-- C10 amended: on tilde-free input containing a
default-emoji-presentation scalar the pipeline is not idempotent —
every application inserts a further zero-width space after each such
scalar and a previously inserted U+200B does not block re-matching, so
a second application of the (JS-faithful, code-unit-level) conversion
differs from the first; concretely `convert("😀")` appends one
zero-width space and `convert(convert("😀"))` a second one.  The
tilde-free hypothesis excludes exactly the inputs on which the
strikethrough pass can interleave combining marks into a surrogate
pair, which is what makes the unrestricted claim false. -/
theorem convert_not_idempotent_no_tilde :
    (∀ t : String, '~' ∉ t.data →
        (∃ c ∈ t.data, isEmojiPresentation c = true) →
        convertToIOSStyleU16 (convertToIOSStyleU16 (utf16Units t.data))
          ≠ convertToIOSStyleU16 (utf16Units t.data)) ∧
    convertToIOSStyle "😀" = String.mk ['😀', zwsp] ∧
    convertToIOSStyle (convertToIOSStyle "😀") = String.mk ['😀', zwsp, zwsp] := by
  refine ⟨?_, by decide, by decide⟩
  intro t ht hex heq16
  have hP : ∀ l : List Char,
      (convertQuotes (convertMonospace (convertStrikethrough
        (convertItalic (convertBold l))))).countP (fun c => isEmojiPresentation c)
        = l.countP (fun c => isEmojiPresentation c) :=
    stylePasses_countP _ (by decide) (by decide) (by decide) (by decide)
      (by decide) (by decide) (by decide) (by decide) (by decide) (by decide)
      (by decide) (by decide) (by decide) (by decide)
  have hZ : ∀ l : List Char,
      (convertQuotes (convertMonospace (convertStrikethrough
        (convertItalic (convertBold l))))).countP (fun c => c == zwsp)
        = l.countP (fun c => c == zwsp) :=
    stylePasses_countP _ (by decide) (by decide) (by decide) (by decide)
      (by decide) (by decide) (by decide) (by decide) (by decide) (by decide)
      (by decide) (by decide) (by decide) (by decide)
  have hdata : ∀ s : String, (convertToIOSStyle s).data
      = improveEmojiSpacing (convertQuotes (convertMonospace
          (convertStrikethrough (convertItalic (convertBold s.data))))) :=
    fun _ => rfl
  have h0 : 0 < t.data.countP (fun c => isEmojiPresentation c) := by
    obtain ⟨c, hc, hcep⟩ := hex
    exact List.countP_pos_iff.mpr ⟨c, hc, by simpa using hcep⟩
  have hEPu : 0 < (convertToIOSStyle t).data.countP
      (fun c => isEmojiPresentation c) := by
    rw [hdata t, improveEmojiSpacing_countP _ (by decide), hP]
    exact h0
  have hexu : ∃ c ∈ convertQuotes (convertMonospace (convertStrikethrough
      (convertItalic (convertBold (convertToIOSStyle t).data)))),
      isEmojiPresentation c = true := by
    have hpos : 0 < (convertQuotes (convertMonospace (convertStrikethrough
        (convertItalic (convertBold (convertToIOSStyle t).data))))).countP
          (fun c => isEmojiPresentation c) := by
      rw [hP]
      exact hEPu
    obtain ⟨c, hc, hcp⟩ := List.countP_pos_iff.mp hpos
    exact ⟨c, hc, by simpa using hcp⟩
  have hlt : (convertToIOSStyle t).data.countP (fun c => c == zwsp)
      < (convertToIOSStyle (convertToIOSStyle t)).data.countP
          (fun c => c == zwsp) := by
    rw [hdata (convertToIOSStyle t)]
    calc (convertToIOSStyle t).data.countP (fun c => c == zwsp)
        = (convertQuotes (convertMonospace (convertStrikethrough
            (convertItalic (convertBold (convertToIOSStyle t).data))))).countP
              (fun c => c == zwsp) := (hZ _).symm
      _ < _ := improveEmojiSpacing_zwsp_lt _ hexu
  have hc1 := convertToIOSStyle_commute_of_no_tilde ht
  have hc2 := convertToIOSStyle_commute_of_no_tilde (tilde_not_mem_convert ht)
  have hdf : (convertToIOSStyle (convertToIOSStyle t)).data
      = (convertToIOSStyle t).data := by
    apply utf16Units_inj
    rw [hc2, hc1]
    exact heq16
  rw [hdf] at hlt
  exact lt_irrefl _ hlt

/-- C10 witness: the amended non-idempotence statement applied to the
single emoji `😀`. -/
theorem convert_not_idempotent_no_tilde_witness :
    convertToIOSStyleU16 (convertToIOSStyleU16 (utf16Units "😀".data))
      ≠ convertToIOSStyleU16 (utf16Units "😀".data) :=
  convert_not_idempotent_no_tilde.1 "😀" (by decide) ⟨'😀', by decide, by decide⟩

end Whatsbot
